import Mathlib

/-!
# IMAP `BODY[<section>]` fetching (`src/lib-storage/index/index-fetch-section.c`)

A shallow embedding of the section fetcher and the properties proved about it.

Conventions of the embedding.

* A byte is a `Nat`; a region of memory reached through a `char *` is the
  `List Nat` of the bytes from the pointer onwards.  Dereferencing (`*p`) is
  `cur p`, which reads `0` at the end of the list, so a C string is ended by
  its first `0` byte or by the end of the list, whichever comes first.
* `unsigned int` arithmetic is arithmetic modulo `2 ^ 32`.
* A `MessagePart` carries the list of its children in sibling order, for the
  chain `children`, `children->next`, `children->next->next`, ...
* The output sink records every byte string handed to `io_buffer_send`.
-/

namespace IndexFetchSection

/-! ## Bytes and C strings -/

/-- The bytes of a string literal. -/
def bytes (s : String) : List Nat := s.toList.map Char.toNat

/-- Dereference `*p`: the first byte, `0` when nothing is left. -/
def cur (p : List Nat) : Nat := p.headD 0

/-- The content of the C string at `p`: the bytes before the first `0`. -/
def cstr (p : List Nat) : List Nat := p.takeWhile (fun c => c != 0)

/-- The `toupper` of the C locale, as used by `i_toupper`. -/
def i_toupper (c : Nat) : Nat := if 97 ≤ c ∧ c ≤ 122 then c - 32 else c

/-- The `tolower` of the C locale, which `strcasecmp` and `strncasecmp` compare with. -/
def i_tolower (c : Nat) : Nat := if 65 ≤ c ∧ c ≤ 90 then c + 32 else c

/-- The libc `strncasecmp(s1, s2, n)`: compare at most `n` bytes, ignoring case,
stopping after a `0` byte; the result is zero exactly when no difference was found. -/
def strncasecmp : List Nat → List Nat → Nat → Int
  | _, _, 0 => 0
  | s1, s2, n + 1 =>
    if i_tolower (cur s1) ≠ i_tolower (cur s2) then
      (i_tolower (cur s1) : Int) - (i_tolower (cur s2) : Int)
    else if cur s1 = 0 then 0
    else strncasecmp s1.tail s2.tail n

/-- The libc `strcasecmp(s1, s2)`: `strncasecmp` without a bound; no more than
`s1.length + 1` bytes are ever compared, the last one being the terminator. -/
def strcasecmp (s1 s2 : List Nat) : Int := strncasecmp s1 s2 (s1.length + 1)

/-- The decimal digits printed by the `printf` conversions `%u`, `PRIuUOFF_T`, `PRIuSIZE_T`. -/
def decimal (n : Nat) : List Nat := (Nat.toDigits 10 n).map Char.toNat

/-- The literal header `t_strdup_printf("%s {%u}\r\n", prefix, n)`, used by every fetch path. -/
def literal_header (pfx : List Nat) (n : Nat) : List Nat :=
  cstr pfx ++ bytes " \x7b" ++ decimal n ++ bytes "\x7d\r\n"

/-! ## The part tree -/

/-- The `MessageSize` of a header or body: raw bytes, and bytes once every line ends in CRLF. -/
structure MessageSize where
  physical_size : Nat
  virtual_size : Nat
deriving Repr, DecidableEq

/-- A node of the parsed MIME structure (`MessagePart`).  `multipart` is
`flags & MESSAGE_PART_FLAG_MULTIPART`; `children` lists the first child and then
its `next` siblings in order. -/
inductive MessagePart where
  | mk (physical_pos : Nat) (header_size body_size : MessageSize) (multipart : Bool)
      (children : List MessagePart) : MessagePart

namespace MessagePart

/-- Field `physical_pos`. -/
def physical_pos : MessagePart → Nat
  | mk p _ _ _ _ => p

/-- Field `header_size`. -/
def header_size : MessagePart → MessageSize
  | mk _ h _ _ _ => h

/-- Field `body_size`. -/
def body_size : MessagePart → MessageSize
  | mk _ _ b _ _ => b

/-- The test `flags & MESSAGE_PART_FLAG_MULTIPART`. -/
def multipart : MessagePart → Bool
  | mk _ _ _ m _ => m

/-- The sibling chain starting at `children`. -/
def children : MessagePart → List MessagePart
  | mk _ _ _ _ cs => cs

end MessagePart

/-! ## The output sink -/

/-- The output buffer of the connection.  `sent` holds the byte strings handed to
`io_buffer_send` so far, oldest first; `results` gives the value the `n`-th call
returns (negative for a transport fault). -/
structure IOBuffer where
  sent : List (List Nat)
  results : Nat → Int

/-- Modelled from the spec: `io_buffer_send` (iobuffer.c is not part of the sources) is the
"append-only byte writer that can fail": the data is handed to the sink and the
call reports the sink's result for it. -/
def io_buffer_send (outbuf : IOBuffer) (data : List Nat) : Int × IOBuffer :=
  (outbuf.results outbuf.sent.length, { outbuf with sent := outbuf.sent ++ [data] })

/-! ## Fetch request and context -/

/-- Modelled from the spec: the message cache behind `imap_msgcache_get_parts` and
`imap_msgcache_get_data` (imap-message-cache.c is not part of the sources): the
"parsed structure accessor" returns the root part or fails, the "message byte
source" returns the raw message stream or fails. -/
structure ImapMessageCache where
  parts : Option MessagePart
  data : Option (List Nat)

/-- The request for one body section (`MailFetchBodyData`): the section string
(the field `section`, a reserved word here, hence `section_str`), the window
`skip`, `max_size`, and whether `skip` was given. -/
structure MailFetchBodyData where
  section_str : List Nat
  skip : Nat
  max_size : Nat
  skip_set : Bool

/-- The caller-owned `FetchContext`: message cache, output buffer, first-fragment flag. -/
structure FetchContext where
  cache : ImapMessageCache
  outbuf : IOBuffer
  first : Bool

/-! ## Header field filter -/

/-- The split loop of `t_strsplit`: `field` collects the bytes of the element being read. -/
def t_strsplit_loop (separators : List Nat) : List Nat → List Nat → List (List Nat)
  | [], field => [field]
  | c :: data, field =>
    if c ∈ separators then field :: t_strsplit_loop separators data []
    else t_strsplit_loop separators data (field ++ [c])

/-- Modelled from the spec: `t_strsplit` (strfuncs.c is not part of the sources) cuts the
string at every separator byte, giving the "space-separated tokens" in order, the
empty ones included (the predicates skip those). -/
def t_strsplit (data separators : List Nat) : List (List Nat) :=
  t_strsplit_loop separators (cstr data) []

/-- The loop `while (*fields == ' ') fields++;` of `get_fields_array`. -/
def skip_spaces : List Nat → List Nat
  | [] => []
  | c :: fields => if c = 32 then skip_spaces fields else c :: fields

/-- The function `get_fields_array` (lines 57-75): skip blanks and one `(`, split at
blanks and `)`, and end the array at the first element equal to `)`. -/
def get_fields_array (fields : List Nat) : List (List Nat) :=
  let fields1 := skip_spaces fields
  let fields2 := if cur fields1 = 40 then fields1.tail else fields1
  (t_strsplit fields2 (bytes " )")).takeWhile (fun field => strcasecmp field (bytes ")") != 0)

/-- The inner loop of `header_match` (lines 91-103) for one list entry: `field` is the
pointer into the entry, the second argument the bytes from `name` to `name_end`. -/
def header_match_field : List Nat → List Nat → Bool
  | _, [] => false
  | field, c :: name =>
    if i_toupper c ≠ cur field then false
    else if cur field.tail = 0 then name.isEmpty
    else header_match_field field.tail name

/-- The loop of `header_match` over the `NULL`-ended array (lines 86-104), `span`
being the bytes from `name_start` to `name_end`. -/
def header_match_loop : List (List Nat) → List Nat → Bool
  | [], _ => false
  | field :: fields, span =>
    if cur field = 0 then header_match_loop fields span
    else if header_match_field field span then true
    else header_match_loop fields span

/-- The function `header_match` (lines 77-107).  `name` is the memory at the name
pointer and `size` the length of the name; the C function asserts `size > 0`,
which the statements about it assume. -/
def header_match (fields : List (List Nat)) (name : List Nat) (size : Nat) : Bool :=
  header_match_loop fields (name.take size)

/-- The function `header_match_not` (lines 109-112). -/
def header_match_not (fields : List (List Nat)) (name : List Nat) (size : Nat) : Bool :=
  !header_match fields name size

/-- The function `header_match_mime` (lines 114-124); the field list is unused. -/
def header_match_mime (_fields : List (List Nat)) (name : List Nat) (size : Nat) : Bool :=
  if size > 8 ∧ strncasecmp name (bytes "Content-") 8 = 0 then true
  else if size = 12 ∧ strncasecmp name (bytes "Mime-Version") 13 = 0 then true
  else false

/-! ## Header copier -/

/-- One call of the tokenizer's callback: `name` is the memory at the name pointer,
`name_len` the length of the name, `value` the offset `value - name` of the value
pointer in the same buffer, `value_len` the length of the value. -/
structure HeaderField where
  name : List Nat
  name_len : Nat
  value : Nat
  value_len : Nat

/-- The bytes from `field_start = name` to `field_end = value + value_len`. -/
def HeaderField.span (hdr : HeaderField) : List Nat :=
  hdr.name.take (hdr.value + hdr.value_len)

/-- The `FetchHeaderFieldContext`.  `dest` holds the bytes stored so far, from the
start of the destination buffer up to the moving pointer `dest`. -/
structure FetchHeaderFieldContext where
  dest : List Nat
  fields : List (List Nat)
  match_func : List (List Nat) → List Nat → Nat → Bool

/-- The copy loop of `fetch_header_field` (lines 151-166).  The list argument is the
memory from `p` to `field_end`; `p`, `cr` and `field_start` are offsets from
`name`, with `cr = none` for `NULL`.  Returns the final `field_start` and `dest`. -/
def fetch_header_field_loop (name : List Nat) :
    List Nat → Nat → Option Nat → Nat → List Nat → Nat × List Nat
  | [], _, _, field_start, dest => (field_start, dest)
  | c :: rest, p, cr, field_start, dest =>
    if c = 13 then
      fetch_header_field_loop name rest (p + 1) (some p) field_start dest
    else if c = 10 ∧ cr.map (fun q => q + 1) ≠ some p then
      fetch_header_field_loop name rest (p + 1) cr (p + 1)
        (dest ++ (name.drop field_start).take (p - field_start) ++ [13, 10])
    else
      fetch_header_field_loop name rest (p + 1) cr field_start dest

/-- The callback `fetch_header_field` (lines 132-177). -/
def fetch_header_field (hdr : HeaderField) (ctx : FetchHeaderFieldContext) :
    FetchHeaderFieldContext :=
  if !ctx.match_func ctx.fields hdr.name hdr.name_len then ctx
  else
    let field_end := hdr.value + hdr.value_len
    let r := fetch_header_field_loop hdr.name (hdr.name.take field_end) 0 none 0 ctx.dest
    let dest1 :=
      if r.1 ≠ field_end then r.2 ++ (hdr.name.drop r.1).take (field_end - r.1) else r.2
    { ctx with dest := dest1 ++ [13, 10] }

/-- The function `fetch_header_fields` (lines 180-192).  The tokenizer
`message_parse_header` (message-parser.c is not part of the sources) is a
parameter: it gives the fields for which it invokes the callback, in order.
The result is the bytes stored into `dest`; the returned count `ctx.dest - dest`
is their number. -/
def fetch_header_fields (message_parse_header : List Nat → List HeaderField)
    (inbuf : List Nat) (fields : List (List Nat))
    (match_func : List (List Nat) → List Nat → Nat → Bool) : List Nat :=
  ((message_parse_header inbuf).foldl (fun ctx hdr => fetch_header_field hdr ctx)
    { dest := [], fields := fields, match_func := match_func }).dest

/-- The text `f` with a CR inserted before every LF that is not immediately preceded
by a CR, as the specification words the normalisation; `prev_cr` tells whether
the byte before the text is a CR. -/
def insert_missing_cr : Bool → List Nat → List Nat
  | _, [] => []
  | prev_cr, c :: f =>
    if c = 10 ∧ prev_cr = false then 13 :: 10 :: insert_missing_cr false f
    else c :: insert_missing_cr (decide (c = 13)) f

/-- The number of LF bytes not immediately preceded by a CR; `prev_cr` tells whether
the byte before the text is a CR. -/
def missing_cr_count : Bool → List Nat → Nat
  | _, [] => 0
  | prev_cr, c :: f =>
    (if c = 10 ∧ prev_cr = false then 1 else 0) + missing_cr_count (decide (c = 13)) f

/-- The virtual size of a byte block: "its physical length plus the number of LF
bytes not preceded by CR". -/
def virtual_size_of (block : List Nat) : Nat :=
  block.length + missing_cr_count false block

/-! ## Windowed emitter -/

/-- Modelled from the spec: `message_send` (message-send.c is not part of the sources) is the
"windowed byte transfer": "given an output sink, a byte source, a size, a skip
offset and a max size, writes the windowed slice and signals success/failure".
The slice is `[skip, skip + max_size)` clamped to `size->virtual_size`, taken
from the source with its line ends normalised to CRLF. -/
def message_send (outbuf : IOBuffer) (inbuf : List Nat) (size : MessageSize)
    (virtual_skip max_virtual_size : Nat) : Bool × IOBuffer :=
  let slice :=
    (((insert_missing_cr false inbuf).take size.virtual_size).drop virtual_skip).take
      max_virtual_size
  let r := io_buffer_send outbuf slice
  (decide (0 ≤ r.1), r.2)

/-- Modelled from the spec: `io_buffer_skip` (iobuffer.c is not part of the sources) moves the
byte source forward by `count` bytes. -/
def io_buffer_skip (inbuf : List Nat) (count : Nat) : List Nat := inbuf.drop count

/-- The largest `ssize_t` of an LP64 platform. -/
def SSIZE_T_MAX : Nat := 2 ^ 63 - 1

/-- The filtered buffer of `fetch_header_from` (lines 227-241): the bytes stored in
`dest` and counted by `len`, by kind of section. -/
def fetch_header_from_filtered (message_parse_header : List Nat → List HeaderField)
    (inbuf : List Nat) (section_str : List Nat) : List Nat :=
  if strncasecmp section_str (bytes "HEADER.FIELDS ") 14 = 0 then
    fetch_header_fields message_parse_header inbuf
      (get_fields_array (section_str.drop 14)) header_match
  else if strncasecmp section_str (bytes "HEADER.FIELDS.NOT ") 18 = 0 then
    fetch_header_fields message_parse_header inbuf
      (get_fields_array (section_str.drop 18)) header_match_not
  else if strcasecmp section_str (bytes "MIME") = 0 then
    fetch_header_fields message_parse_header inbuf [] header_match_mime
  else []

/-- The window of `fetch_header_from` (lines 245-253) on a buffer `dest` holding `len`
bytes: the advanced `dest` pointer and the new `len`. -/
def fetch_header_from_window (dest : List Nat) (len skip max_size : Nat) : List Nat × Nat :=
  if len ≤ skip then (dest, 0)
  else (dest.drop skip, if len - skip > max_size then max_size else len - skip)

/-- The function `fetch_header_from` (lines 195-261).  `none` is a failed
`i_assert(len <= size->virtual_size)`; otherwise the result is the returned
flag and the context with its output buffer after the writes. -/
def fetch_header_from (message_parse_header : List Nat → List HeaderField)
    (inbuf : List Nat) (size : MessageSize) (section_str : List Nat)
    (sect : MailFetchBodyData) (ctx : FetchContext) (pfx : List Nat) :
    Option (Bool × FetchContext) :=
  if strcasecmp section_str (bytes "HEADER") = 0 then
    let r := io_buffer_send ctx.outbuf (literal_header pfx size.virtual_size)
    if r.1 < 0 then some (false, { ctx with outbuf := r.2 })
    else
      let m := message_send r.2 inbuf size sect.skip sect.max_size
      some (m.1, { ctx with outbuf := m.2 })
  else if size.virtual_size > SSIZE_T_MAX then some (false, ctx)
  else
    let dest := fetch_header_from_filtered message_parse_header inbuf section_str
    if ¬ dest.length ≤ size.virtual_size then none
    else
      let w := fetch_header_from_window dest dest.length sect.skip sect.max_size
      let r1 := io_buffer_send ctx.outbuf (literal_header pfx w.2)
      if r1.1 < 0 then some (false, { ctx with outbuf := r1.2 })
      else
        let r2 := io_buffer_send r1.2 (w.1.take w.2)
        some (decide (r2.1 = 0), { ctx with outbuf := r2.2 })

/-- One more than the largest `uoff_t`, an unsigned type of 64 bits. -/
def UOFF_T_MOD : Nat := 2 ^ 64

/-- The function `fetch_part_body` (lines 318-341).  The offset `skip_pos` is a sum
of two `uoff_t` values, taken modulo `2 ^ 64`. -/
def fetch_part_body (part : MessagePart) (sect : MailFetchBodyData) (ctx : FetchContext)
    (pfx : List Nat) : Bool × FetchContext :=
  match ctx.cache.data with
  | none => (false, ctx)
  | some inbuf0 =>
    let skip_pos := (part.physical_pos + part.header_size.physical_size) % UOFF_T_MOD
    let inbuf := io_buffer_skip inbuf0 skip_pos
    let r := io_buffer_send ctx.outbuf (literal_header pfx part.body_size.virtual_size)
    if r.1 < 0 then (false, { ctx with outbuf := r.2 })
    else
      let m := message_send r.2 inbuf part.body_size sect.skip sect.max_size
      (m.1, { ctx with outbuf := m.2 })

/-! ## Section path resolver: `part_find` -/

/-- One more than the largest `unsigned int`. -/
def UINT_MOD : Nat := 2 ^ 32

/-- The digit loop of `part_find` (lines 290-296): reads the part number up to the
next `.` or the end of the string into the `unsigned int` accumulator `num`;
`none` is the `return NULL` on a non-digit.  The result is `num` and the
advanced `path`. -/
def part_find_num : List Nat → Nat → Option (Nat × List Nat)
  | [], num => some (num, [])
  | c :: path, num =>
    if c = 0 ∨ c = 46 then some (num, c :: path)
    else if c < 48 ∨ c > 57 then none
    else part_find_num path ((num * 10 + (c - 48)) % UINT_MOD)

/-- The sibling walk of `part_find` (lines 303-305): starting at `part->children`,
`for (; num > 1 && part != NULL; num--) part = part->next;`. -/
def part_find_child : List MessagePart → Nat → Option MessagePart
  | [], _ => none
  | part :: next, num => if num > 1 then part_find_child next (num - 1) else some part

/-- What `part_find` returns: `null` for a `NULL` result, `found part rest` for the
part together with the unconsumed suffix stored through `section`.  `out_of_fuel`
is not a result of the C function: it marks a run of the embedded loop that was
given too few iterations. -/
inductive PartFound where
  | out_of_fuel : PartFound
  | null : PartFound
  | found (part : MessagePart) (rest : List Nat) : PartFound

/-- The outer loop of `part_find` (lines 288-311), with at most `fuel` tests of the
loop condition. -/
def part_find_loop : Nat → Option MessagePart → List Nat → PartFound
  | 0, _, _ => PartFound.out_of_fuel
  | fuel + 1, part, path =>
    match part with
    | none => PartFound.null
    | some p =>
      if 48 ≤ cur path ∧ cur path ≤ 57 then
        match part_find_num path 0 with
        | none => PartFound.null
        | some (num, path1) =>
          let path2 := if cur path1 = 46 then path1.tail else path1
          if p.multipart then
            part_find_loop fuel (part_find_child p.children num) path2
          else if num ≠ 1 then PartFound.null
          else part_find_loop fuel (some p) path2
      else PartFound.found p path

/-- The function `part_find` (lines 278-315).  Every iteration of the outer loop
consumes at least the digit it tested, so `length + 1` tests are enough. -/
def part_find (sect : MailFetchBodyData) (ctx : FetchContext) : PartFound :=
  part_find_loop (sect.section_str.length + 1) ctx.cache.parts sect.section_str

/-! ## Cache requirement classifier -/

/-- The flags of `ImapCacheField` that the classifier returns.  Their numeric values
(imap-message-cache.h is not part of the sources) do not matter here: a set of
flags or-ed together is the list of its flags, and `0` is the empty list. -/
inductive ImapCacheField where
  | IMAP_CACHE_MESSAGE_OPEN : ImapCacheField
  | IMAP_CACHE_MESSAGE_PART : ImapCacheField
  | IMAP_CACHE_MESSAGE_HDR_SIZE : ImapCacheField
deriving DecidableEq, Repr

/-- The function `index_fetch_body_get_cache` (lines 14-31). -/
def index_fetch_body_get_cache (section_str : List Nat) : List ImapCacheField :=
  if 48 ≤ cur section_str ∧ cur section_str ≤ 57 then
    [ImapCacheField.IMAP_CACHE_MESSAGE_PART, ImapCacheField.IMAP_CACHE_MESSAGE_OPEN]
  else if cur section_str = 0 ∨ strcasecmp section_str (bytes "TEXT") = 0 then
    [ImapCacheField.IMAP_CACHE_MESSAGE_OPEN]
  else if strncasecmp section_str (bytes "HEADER") 6 = 0
      ∨ strcasecmp section_str (bytes "MIME") = 0 then
    [ImapCacheField.IMAP_CACHE_MESSAGE_HDR_SIZE, ImapCacheField.IMAP_CACHE_MESSAGE_OPEN]
  else []

/-! ## Section dispatcher -/

/-- Modelled from the spec: the collaborators that are not part of the sources and that
the fetch paths below call, taken as parameters.  `message_parse_header` is the
"generic header tokenizer"; `imap_msgcache_get_rfc822` is the "header byte
source", giving the header stream and its size or failing;
`imap_msgcache_get_rfc822_partial cache skip max_size fetch_header` is the
"message byte source" of `fetch_body`, giving the size and the stream of the
requested window of the message, with or without its header, or failing. -/
structure Collaborators where
  message_parse_header : List Nat → List HeaderField
  imap_msgcache_get_rfc822 : ImapMessageCache → Option (List Nat × MessageSize)
  imap_msgcache_get_rfc822_partial :
    ImapMessageCache → Nat → Nat → Bool → Option (MessageSize × List Nat)

/-- The function `fetch_body` (lines 34-55); the record `rec` is used for the error
message only and is left out. -/
def fetch_body (coll : Collaborators) (sect : MailFetchBodyData) (ctx : FetchContext)
    (pfx : List Nat) (fetch_header : Bool) : Bool × FetchContext :=
  match coll.imap_msgcache_get_rfc822_partial ctx.cache sect.skip sect.max_size
      fetch_header with
  | none => (false, ctx)
  | some (size, inbuf) =>
    let r := io_buffer_send ctx.outbuf (literal_header pfx size.virtual_size)
    if r.1 < 0 then (false, { ctx with outbuf := r.2 })
    else
      let m := message_send r.2 inbuf size 0 sect.max_size
      (m.1, { ctx with outbuf := m.2 })

/-- The function `fetch_header` (lines 264-275). -/
def fetch_header (coll : Collaborators) (sect : MailFetchBodyData) (ctx : FetchContext)
    (pfx : List Nat) : Option (Bool × FetchContext) :=
  match coll.imap_msgcache_get_rfc822 ctx.cache with
  | none => some (false, ctx)
  | some (inbuf, hdr_size) =>
    fetch_header_from coll.message_parse_header inbuf hdr_size sect.section_str sect ctx pfx

/-- The function `fetch_part_header` (lines 344-356). -/
def fetch_part_header (coll : Collaborators) (part : MessagePart) (section_str : List Nat)
    (sect : MailFetchBodyData) (ctx : FetchContext) (pfx : List Nat) :
    Option (Bool × FetchContext) :=
  match ctx.cache.data with
  | none => some (false, ctx)
  | some inbuf0 =>
    fetch_header_from coll.message_parse_header (io_buffer_skip inbuf0 part.physical_pos)
      part.header_size section_str sect ctx pfx

/-- The function `fetch_part` (lines 358-377).  `none` is a failed `i_assert` of
`fetch_header_from`, or a run of `part_find` that was given too few iterations,
which does not arise. -/
def fetch_part (coll : Collaborators) (sect : MailFetchBodyData) (ctx : FetchContext)
    (pfx : List Nat) : Option (Bool × FetchContext) :=
  match part_find sect ctx with
  | PartFound.out_of_fuel => none
  | PartFound.null => some (false, ctx)
  | PartFound.found part section_str =>
    if cur section_str = 0 ∨ strcasecmp section_str (bytes "TEXT") = 0 then
      some (fetch_part_body part sect ctx pfx)
    else if strncasecmp section_str (bytes "HEADER") 6 = 0 then
      fetch_part_header coll part section_str sect ctx pfx
    else if strcasecmp section_str (bytes "MIME") = 0 then
      fetch_part_header coll part section_str sect ctx pfx
    else some (false, ctx)

/-- The branch of `index_fetch_body_section` that a section takes. -/
inductive SectionRoute where
  | body : SectionRoute
  | text : SectionRoute
  | header : SectionRoute
  | part : SectionRoute
  | unrecognized : SectionRoute
deriving DecidableEq, Repr

/-- The chain of tests of `index_fetch_body_section` (lines 392-402). -/
def index_fetch_body_route (section_str : List Nat) : SectionRoute :=
  if cur section_str = 0 then SectionRoute.body
  else if strcasecmp section_str (bytes "TEXT") = 0 then SectionRoute.text
  else if strncasecmp section_str (bytes "HEADER") 6 = 0 then SectionRoute.header
  else if 48 ≤ cur section_str ∧ cur section_str ≤ 57 then SectionRoute.part
  else SectionRoute.unrecognized

/-- The calls of `index_fetch_body_section` (lines 392-402) with the text `pfx`
built before, by branch; the last one is `return FALSE`. -/
def index_fetch_body_dispatch (coll : Collaborators) (sect : MailFetchBodyData)
    (ctx : FetchContext) (pfx : List Nat) : Option (Bool × FetchContext) :=
  match index_fetch_body_route sect.section_str with
  | SectionRoute.body => some (fetch_body coll sect ctx pfx true)
  | SectionRoute.text => some (fetch_body coll sect ctx pfx false)
  | SectionRoute.header => fetch_header coll sect ctx pfx
  | SectionRoute.part => fetch_part coll sect ctx pfx
  | SectionRoute.unrecognized => some (false, ctx)

/-- The text `index_fetch_body_section` builds in `prefix` (lines 384-390), before
the step over the leading blank. -/
def index_fetch_body_text (sect : MailFetchBodyData) : List Nat :=
  if !sect.skip_set then
    bytes " BODY[" ++ cstr sect.section_str ++ bytes "]"
  else
    bytes " BODY[" ++ cstr sect.section_str ++ bytes "]<" ++ decimal sect.skip ++ bytes ">"

/-- The function `index_fetch_body_section` (lines 379-403); the record `rec` is used
for an error message only and is left out. -/
def index_fetch_body_section (coll : Collaborators) (sect : MailFetchBodyData)
    (ctx : FetchContext) : Option (Bool × FetchContext) :=
  if ctx.first then
    index_fetch_body_dispatch coll sect { ctx with first := false }
      (index_fetch_body_text sect).tail
  else
    index_fetch_body_dispatch coll sect ctx (index_fetch_body_text sect)

/-! ## Vocabulary of the statements

The definitions below are not part of the program: they word the properties
proved about it, following the specification. -/

/-- The announced length of a window as the specification words it: nothing when
`skip` is at or past the end, otherwise what is left after `skip`, capped at
`max_size`. -/
def window_length (total skip max_size : Nat) : Nat :=
  if skip ≥ total then 0 else min (total - skip) max_size

/-- The bytes of `buffer` at offsets `[skip, skip + window_length)`. -/
def window_bytes (buffer : List Nat) (skip max_size : Nat) : List Nat :=
  (buffer.drop skip).take (window_length buffer.length skip max_size)

/-- An ASCII digit. -/
def is_digit (c : Nat) : Bool := decide (48 ≤ c ∧ c ≤ 57)

/-- The decimal value of a digit string. -/
def decimal_value (digits : List Nat) : Nat :=
  digits.foldl (fun v c => v * 10 + (c - 48)) 0

/-- The value the `unsigned int` accumulator of `part_find` holds after the digits. -/
def num_accum (acc : Nat) (digits : List Nat) : Nat :=
  digits.foldl (fun v c => (v * 10 + (c - 48)) % UINT_MOD) acc

/-- The section text `n1.n2.....nk` of the segments `n1`, ..., `nk`. -/
def dotted : List (List Nat) → List Nat
  | [] => []
  | [seg] => seg
  | seg :: seg1 :: segs => seg ++ 46 :: dotted (seg1 :: segs)

/-- The section text `n1.n2.....nk.`, every segment followed by a dot. -/
def dotted_before : List (List Nat) → List Nat
  | [] => []
  | seg :: segs => seg ++ 46 :: dotted_before segs

/-- One step of the resolver as the specification words it: at a multipart node go
to child number `num` (1-based), at any other node stay if `num = 1`. -/
def part_step (part : MessagePart) (num : Nat) : Option MessagePart :=
  if part.multipart then (if 1 ≤ num then part.children[num - 1]? else none)
  else if num = 1 then some part else none

/-- The steps applied left to right, not-found as soon as one fails. -/
def part_walk : MessagePart → List Nat → Option MessagePart
  | part, [] => some part
  | part, num :: nums =>
    match part_step part num with
    | none => none
    | some child => part_walk child nums

/-- The result of `part_find` for a node (or not-found) and an unconsumed suffix. -/
def part_result (part : Option MessagePart) (rest : List Nat) : PartFound :=
  match part with
  | none => PartFound.null
  | some p => PartFound.found p rest

/-- The `.`-separated tokens of a section. -/
def dot_tokens : List Nat → List (List Nat)
  | [] => [[]]
  | c :: s =>
    if c = 46 then [] :: dot_tokens s
    else
      match dot_tokens s with
      | [] => [[c]]
      | token :: tokens => (c :: token) :: tokens

/-- Some `.`-separated token starts with a digit and contains a non-digit. -/
def has_malformed_token (s : List Nat) : Bool :=
  (dot_tokens s).any (fun token => is_digit (cur token) && token.any (fun c => !is_digit c))

/-- The bytes the specification has the header copier write: for every field whose
name satisfies the predicate, in order, the normalised span followed by CR LF. -/
def copied_fields (fields : List (List Nat))
    (match_func : List (List Nat) → List Nat → Nat → Bool) : List HeaderField → List Nat
  | [] => []
  | hdr :: hdrs =>
    (if match_func fields hdr.name hdr.name_len then
      insert_missing_cr false hdr.span ++ [13, 10]
    else []) ++ copied_fields fields match_func hdrs

/-- Whether the text ends in a CR; `prev_cr` answers for the empty text. -/
def ends_cr : Bool → List Nat → Bool
  | prev_cr, [] => prev_cr
  | _, c :: f => ends_cr (decide (c = 13)) f

/-- Modelled from the spec: one logical line of a header block as the "generic header
tokenizer" (`message_parse_header`, message-parser.c is not part of the sources) goes through
it.  `field` is a header field, for which the callback is invoked "with (name
span, value span)": `span` runs from the name start to the value end, the value
starts at offset `value`, and the line is ended after the span by CR LF (`crlf`)
or by a bare LF.  `skipped` is a line passed over without a callback (a line
that is no field, the empty line that ends the header), given without its LF. -/
inductive HeaderLine where
  | field (span : List Nat) (name_len value : Nat) (crlf : Bool) : HeaderLine
  | skipped (line : List Nat) : HeaderLine

/-- The bytes of the line in the block, line end included. -/
def HeaderLine.bytes : HeaderLine → List Nat
  | HeaderLine.field span _ _ crlf => span ++ (if crlf then [13, 10] else [10])
  | HeaderLine.skipped line => line ++ [10]

/-- The value starts inside the span, and a CR right before the LF that ends the
line belongs to the line end, not to the span. -/
def HeaderLine.valid : HeaderLine → Bool
  | HeaderLine.field span _ value crlf =>
    decide (value ≤ span.length) && (crlf || !ends_cr false span)
  | HeaderLine.skipped _ => true

/-- The header block made of the lines. -/
def header_block : List HeaderLine → List Nat
  | [] => []
  | line :: lines => line.bytes ++ header_block lines

/-- The callbacks of the tokenizer on `header_block lines ++ rest`: one per field,
with the name pointer into the buffer. -/
def delivered_fields : List HeaderLine → List Nat → List HeaderField
  | [], _ => []
  | HeaderLine.field span name_len value crlf :: lines, rest =>
    { name := span ++ ((if crlf then [13, 10] else [10]) ++ (header_block lines ++ rest)),
      name_len := name_len, value := value, value_len := span.length - value }
      :: delivered_fields lines rest
  | HeaderLine.skipped _ :: lines, rest => delivered_fields lines rest

/-- The C strings `s` and `t` are equal when letter case is ignored. -/
def eq_nocase (s t : List Nat) : Bool :=
  decide ((cstr s).map i_tolower = (cstr t).map i_tolower)

/-- The C string `s` starts with the first `n` bytes of `t` when letter case is ignored
(with the whole of `t` when `t` is shorter, and then `s` is no longer than `t`). -/
def starts_nocase (s t : List Nat) (n : Nat) : Bool :=
  decide (((cstr s).take n).map i_tolower = ((cstr t).take n).map i_tolower)

/-- The text that goes before the literal of a fragment as the specification words it:
a blank unless the fragment is the first, `BODY[<section>]`, and `<skip>` when
skip was set. -/
def fragment_text (section_str : List Nat) (skip : Nat) (skip_set first : Bool) : List Nat :=
  (if first then [] else bytes " ") ++ bytes "BODY[" ++ cstr section_str ++ bytes "]"
    ++ (if skip_set then bytes "<" ++ decimal skip ++ bytes ">" else [])

/-! ## Sample inputs -/

/-- The header `Subject: Hi\r\nFrom: a@b\n\r\n`, line by line. -/
def sample_lines : List HeaderLine :=
  [HeaderLine.field (bytes "Subject: Hi") 7 9 true,
   HeaderLine.field (bytes "From: a@b") 4 6 false,
   HeaderLine.skipped [13]]

/-- A tokenizer that delivers the fields of `sample_lines`. -/
def sample_parse : List Nat → List HeaderField := fun _ => delivered_fields sample_lines []

/-- A context with an empty output buffer whose writes all succeed. -/
def sample_ctx : FetchContext := ⟨⟨none, none⟩, ⟨[], fun _ => 0⟩, true⟩

/-- A leaf part: header of 8 bytes at offset 20, body of 10 bytes. -/
def sample_leaf : MessagePart := MessagePart.mk 20 ⟨8, 8⟩ ⟨10, 10⟩ false []

/-- A multipart root whose only child is `sample_leaf`. -/
def sample_root : MessagePart := MessagePart.mk 0 ⟨20, 20⟩ ⟨40, 40⟩ true [sample_leaf]

/-- The header `Subject: Hi\r\nFrom: a@b\r\n` of scenario B, line by line. -/
def scenario_lines : List HeaderLine :=
  [HeaderLine.field (bytes "Subject: Hi") 7 9 true,
   HeaderLine.field (bytes "From: a@b") 4 6 true]

/-- Collaborators for scenario B: the tokenizer delivers the two fields of
`scenario_lines`, the header byte source gives the 24 bytes of the header. -/
def scenario_coll : Collaborators :=
  { message_parse_header := fun _ => delivered_fields scenario_lines [],
    imap_msgcache_get_rfc822 := fun _ => some (header_block scenario_lines, ⟨24, 24⟩),
    imap_msgcache_get_rfc822_partial := fun _ _ _ _ => none }

/-- Collaborators that deliver no field and open no message. -/
def sample_coll : Collaborators :=
  { message_parse_header := fun _ => [],
    imap_msgcache_get_rfc822 := fun _ => none,
    imap_msgcache_get_rfc822_partial := fun _ _ _ _ => none }

/-- The largest `uoff_t`, which stands for an unbounded `max_size`. -/
def UOFF_T_MAX : Nat := 2 ^ 64 - 1

/-- The message of scenario C: a root header of 8 bytes, then two parts, each with a
header of 8 bytes; the bodies are `hello` CR LF at offset 16 and `world` at
offset 31. -/
def scenario_c_message : List Nat :=
  bytes "R: r\r\n\r\nA: 1\r\n\r\nhello\r\nB: 2\r\n\r\nworld"

/-- The first part of scenario C, a leaf. -/
def scenario_c_first : MessagePart := MessagePart.mk 8 ⟨8, 8⟩ ⟨7, 7⟩ false []

/-- The second part of scenario C, a leaf with the body `world`. -/
def scenario_c_second : MessagePart := MessagePart.mk 23 ⟨8, 8⟩ ⟨5, 5⟩ false []

/-- The root of scenario C: multipart, with exactly the two parts as children. -/
def scenario_c_root : MessagePart :=
  MessagePart.mk 0 ⟨8, 8⟩ ⟨28, 28⟩ true [scenario_c_first, scenario_c_second]

/-! ## Properties: windowed emitter -/

/-- C1 (evaluation at the failing input): with skip 2 and max_size 3, `fetch_part_body`
on a part whose body has 10 bytes announces `{10}` and then hands the 3 bytes of
the window to the sink; the unfiltered `HEADER` path of `fetch_header_from` on an
8-byte header announces `{8}` and hands over 3 bytes.  In both the announced
length is the whole virtual size, not the number of bytes written. -/
theorem fetch_announces_unwindowed_size :
    (fetch_part_body (MessagePart.mk 0 ⟨8, 8⟩ ⟨10, 10⟩ false [])
        ⟨bytes "1", 2, 3, true⟩
        ⟨⟨none, some (bytes "A: b\r\n\r\n0123456789")⟩, ⟨[], fun _ => 1⟩, true⟩
        (bytes "BODY[1]<2>")).2.outbuf.sent
      = [bytes "BODY[1]<2> \x7b10\x7d\r\n", bytes "234"]
    ∧ (fetch_header_from (fun _ => []) (bytes "A: b\r\n\r\n") ⟨8, 8⟩ (bytes "HEADER")
        ⟨bytes "HEADER", 2, 3, true⟩
        ⟨⟨none, none⟩, ⟨[], fun _ => 1⟩, true⟩
        (bytes "BODY[HEADER]<2>")).map (fun r => (r.1, r.2.outbuf.sent))
      = some (true, [bytes "BODY[HEADER]<2> \x7b8\x7d\r\n", bytes " b\r"]) := by
  constructor
  · decide
  · decide

/-- The window computed by `fetch_header_from` on a buffer of `dest.length` bytes. -/
theorem fetch_header_from_window_eq (dest : List Nat) (skip max_size : Nat) :
    fetch_header_from_window dest dest.length skip max_size =
      (if dest.length ≤ skip then dest else dest.drop skip,
       window_length dest.length skip max_size) := by
  unfold fetch_header_from_window window_length
  by_cases h : dest.length ≤ skip
  · have h1 : skip ≥ dest.length := h
    rw [if_pos h, if_pos h, if_pos h1]
  · have h1 : ¬ skip ≥ dest.length := h
    rw [if_neg h, if_neg h, if_neg h1]
    congr 1
    split <;> omega

/-- The bytes `fetch_header_from` hands over after the header are the window of the buffer. -/
theorem fetch_header_from_window_bytes (dest : List Nat) (skip max_size : Nat) :
    (if dest.length ≤ skip then dest else dest.drop skip).take
        (window_length dest.length skip max_size)
      = window_bytes dest skip max_size := by
  unfold window_bytes
  by_cases h : dest.length ≤ skip
  · have h1 : skip ≥ dest.length := h
    simp [window_length, h1]
  · rw [if_neg h]

/-- C2: on the filtered paths of `fetch_header_from` (section other than `HEADER`,
header within `SSIZE_T_MAX`, the `i_assert` on the filtered buffer `L` holding),
the call returns and what it hands to the sink is the literal header announcing
`n` followed (unless the header write reported a fault) by the data `d`, where
`n = 0` and `d` is empty when `skip >= |L|`, and otherwise
`n = min (|L| - skip) max_size` and `d` is the bytes of `L` at offsets
`[skip, skip + n)`; in every case `d` has `n` bytes. -/
theorem fetch_header_from_filtered_window
    (message_parse_header : List Nat → List HeaderField) (inbuf : List Nat)
    (size : MessageSize) (section_str : List Nat) (sect : MailFetchBodyData)
    (ctx : FetchContext) (pfx : List Nat)
    (hsection : strcasecmp section_str (bytes "HEADER") ≠ 0)
    (hmax : size.virtual_size ≤ SSIZE_T_MAX)
    (hfit : (fetch_header_from_filtered message_parse_header inbuf section_str).length
      ≤ size.virtual_size) :
    (fetch_header_from message_parse_header inbuf size section_str sect ctx pfx).map
        (fun r => r.2.outbuf.sent)
      = some (ctx.outbuf.sent ++
          (if ctx.outbuf.results ctx.outbuf.sent.length < 0 then
            [literal_header pfx (window_length
              (fetch_header_from_filtered message_parse_header inbuf section_str).length
              sect.skip sect.max_size)]
          else
            [literal_header pfx (window_length
              (fetch_header_from_filtered message_parse_header inbuf section_str).length
              sect.skip sect.max_size),
             window_bytes (fetch_header_from_filtered message_parse_header inbuf section_str)
              sect.skip sect.max_size]))
    ∧ (window_bytes (fetch_header_from_filtered message_parse_header inbuf section_str)
          sect.skip sect.max_size).length
        = window_length
            (fetch_header_from_filtered message_parse_header inbuf section_str).length
            sect.skip sect.max_size
    ∧ (sect.skip ≥ (fetch_header_from_filtered message_parse_header inbuf section_str).length →
        window_length (fetch_header_from_filtered message_parse_header inbuf section_str).length
            sect.skip sect.max_size = 0
        ∧ window_bytes (fetch_header_from_filtered message_parse_header inbuf section_str)
            sect.skip sect.max_size = [])
    ∧ (sect.skip < (fetch_header_from_filtered message_parse_header inbuf section_str).length →
        window_length (fetch_header_from_filtered message_parse_header inbuf section_str).length
            sect.skip sect.max_size
          = min ((fetch_header_from_filtered message_parse_header inbuf section_str).length
              - sect.skip) sect.max_size
        ∧ window_bytes (fetch_header_from_filtered message_parse_header inbuf section_str)
            sect.skip sect.max_size
          = ((fetch_header_from_filtered message_parse_header inbuf section_str).drop
              sect.skip).take
              (min ((fetch_header_from_filtered message_parse_header inbuf section_str).length
                - sect.skip) sect.max_size)) := by
  generalize hL : fetch_header_from_filtered message_parse_header inbuf section_str = L
    at hfit
  have hmax1 : ¬ size.virtual_size > SSIZE_T_MAX := by omega
  have hfit1 : ¬ ¬ L.length ≤ size.virtual_size := by omega
  refine ⟨?_, ?_, ?_, ?_⟩
  · unfold fetch_header_from
    simp only [hL, if_neg hsection, if_neg hmax1, if_neg hfit1, fetch_header_from_window_eq,
      fetch_header_from_window_bytes, io_buffer_send]
    by_cases hr : ctx.outbuf.results ctx.outbuf.sent.length < 0
    · simp [hr]
    · simp [hr]
  · unfold window_bytes window_length
    simp only [List.length_take, List.length_drop]
    split <;> omega
  · intro hskip
    unfold window_bytes window_length
    simp [hskip]
  · intro hskip
    have h : ¬ sect.skip ≥ L.length := by omega
    unfold window_bytes window_length
    simp [h]

/-- C2, at `HEADER.FIELDS (SUBJECT)` with skip 2 and max_size 5 on the sample header:
the three hypotheses hold and the sink receives `{5}` and the 5 bytes `bject`. -/
theorem fetch_header_from_filtered_window_witness :
    (strcasecmp (bytes "HEADER.FIELDS (SUBJECT)") (bytes "HEADER") ≠ 0
      ∧ (26 : Nat) ≤ SSIZE_T_MAX
      ∧ (fetch_header_from_filtered sample_parse (header_block sample_lines)
          (bytes "HEADER.FIELDS (SUBJECT)")).length ≤ 26)
    ∧ (fetch_header_from sample_parse (header_block sample_lines) ⟨25, 26⟩
        (bytes "HEADER.FIELDS (SUBJECT)") ⟨bytes "HEADER.FIELDS (SUBJECT)", 2, 5, true⟩
        sample_ctx (bytes "BODY[HEADER.FIELDS (SUBJECT)]<2>")).map
        (fun r => r.2.outbuf.sent)
      = some [bytes "BODY[HEADER.FIELDS (SUBJECT)]<2> \x7b5\x7d\r\n", bytes "bject"] :=
  ⟨⟨by decide, by decide, by decide⟩,
    ((fetch_header_from_filtered_window sample_parse (header_block sample_lines)
      ⟨25, 26⟩ (bytes "HEADER.FIELDS (SUBJECT)")
      ⟨bytes "HEADER.FIELDS (SUBJECT)", 2, 5, true⟩
      sample_ctx (bytes "BODY[HEADER.FIELDS (SUBJECT)]<2>")
      (by decide) (by decide) (by decide)).1).trans (by decide)⟩

/-! ## Properties: section path resolver -/

/-- The digit test, unfolded. -/
theorem is_digit_iff (c : Nat) : is_digit c = true ↔ 48 ≤ c ∧ c ≤ 57 := by
  simp [is_digit]

/-- The digit loop on a run of digits ended by a dot or the end of the string. -/
theorem part_find_num_digits (seg : List Nat) (hseg : ∀ c ∈ seg, is_digit c = true)
    (rest : List Nat) (hrest : cur rest = 0 ∨ cur rest = 46) (acc : Nat) :
    part_find_num (seg ++ rest) acc = some (num_accum acc seg, rest) := by
  induction seg generalizing acc with
  | nil =>
    cases rest with
    | nil => rfl
    | cons c rest =>
      have hc : c = 0 ∨ c = 46 := by simpa [cur] using hrest
      simp [part_find_num, num_accum, hc]
  | cons c seg ih =>
    have hc := (is_digit_iff c).1 (hseg c (List.mem_cons_self _ _))
    have h1 : ¬ (c = 0 ∨ c = 46) := by omega
    have h2 : ¬ (c < 48 ∨ c > 57) := by omega
    have ih1 := ih (fun d hd => hseg d (List.mem_cons_of_mem _ hd))
      ((acc * 10 + (c - 48)) % UINT_MOD)
    have hacc : num_accum acc (c :: seg)
        = num_accum ((acc * 10 + (c - 48)) % UINT_MOD) seg := rfl
    rw [hacc, List.cons_append]
    simp only [part_find_num, if_neg h1, if_neg h2]
    exact ih1

/-- The digit loop returns `NULL` on a token with a non-digit before its end. -/
theorem part_find_num_malformed (bad : List Nat) (hsep : ∀ c ∈ bad, c ≠ 46 ∧ c ≠ 0)
    (hbad : ∃ c ∈ bad, is_digit c = false) (rest : List Nat) (acc : Nat) :
    part_find_num (bad ++ rest) acc = none := by
  induction bad generalizing acc with
  | nil => simp at hbad
  | cons c bad ih =>
    have hc := hsep c (List.mem_cons_self _ _)
    have h1 : ¬ (c = 0 ∨ c = 46) := by omega
    by_cases h2 : c < 48 ∨ c > 57
    · simp only [List.cons_append, part_find_num, if_neg h1, if_pos h2]
    · have hdig : is_digit c = true := (is_digit_iff c).2 (by omega)
      have hbad1 : ∃ d ∈ bad, is_digit d = false := by
        obtain ⟨d, hd, hdd⟩ := hbad
        rcases List.mem_cons.1 hd with rfl | hd1
        · rw [hdig] at hdd; cases hdd
        · exact ⟨d, hd1, hdd⟩
      simp only [List.cons_append, part_find_num, if_neg h1, if_neg h2]
      exact ih (fun d hd => hsep d (List.mem_cons_of_mem _ hd)) hbad1 _

/-- The accumulator agrees with the decimal value modulo `2 ^ 32`. -/
theorem num_accum_mod (digits : List Nat) (acc acc1 : Nat)
    (h : acc % UINT_MOD = acc1 % UINT_MOD) :
    num_accum acc digits % UINT_MOD
      = digits.foldl (fun v c => v * 10 + (c - 48)) acc1 % UINT_MOD := by
  induction digits generalizing acc acc1 with
  | nil => simpa [num_accum] using h
  | cons c digits ih =>
    simp only [num_accum, List.foldl_cons]
    apply ih
    rw [Nat.mod_mod]
    rw [Nat.add_mod, Nat.mul_mod, h, ← Nat.mul_mod, ← Nat.add_mod]

/-- The accumulator stays below `2 ^ 32`. -/
theorem num_accum_lt (digits : List Nat) (acc : Nat) (h : acc < UINT_MOD) :
    num_accum acc digits < UINT_MOD := by
  induction digits generalizing acc with
  | nil => simpa [num_accum] using h
  | cons c digits ih =>
    simp only [num_accum, List.foldl_cons]
    exact ih _ (Nat.mod_lt _ (by decide))

/-- After the digits the accumulator holds their decimal value modulo `2 ^ 32`. -/
theorem num_accum_eq_mod (digits : List Nat) :
    num_accum 0 digits = decimal_value digits % UINT_MOD := by
  have h1 := num_accum_mod digits 0 0 rfl
  have h2 := num_accum_lt digits 0 (by decide)
  rw [Nat.mod_eq_of_lt h2] at h1
  exact h1

/-- The sibling walk for a number from 1 on is the 1-based child lookup. -/
theorem part_find_child_eq (children : List MessagePart) (num : Nat) (h : 1 ≤ num) :
    part_find_child children num = children[num - 1]? := by
  induction children generalizing num with
  | nil => simp [part_find_child]
  | cons part next ih =>
    by_cases h1 : num > 1
    · simp only [part_find_child, if_pos h1]
      rw [ih (num - 1) (by omega)]
      obtain ⟨k, rfl⟩ : ∃ k, num = k + 2 := ⟨num - 2, by omega⟩
      simp
    · have : num = 1 := by omega
      subst this
      simp [part_find_child]


/-- The outer loop ends at once on a `NULL` part. -/
theorem part_find_loop_null (fuel : Nat) (path : List Nat) :
    part_find_loop (fuel + 1) none path = PartFound.null := rfl

/-- The outer loop ends at a byte that is no digit. -/
theorem part_find_loop_stop (fuel : Nat) (part : Option MessagePart) (path : List Nat)
    (hpath : is_digit (cur path) = false) :
    part_find_loop (fuel + 1) part path = part_result part path := by
  cases part with
  | none => rfl
  | some p =>
    have h : ¬ (48 ≤ cur path ∧ cur path ≤ 57) := by
      intro hd
      rw [(is_digit_iff _).2 hd] at hpath
      cases hpath
    simp only [part_find_loop, if_neg h, part_result]

/-- The first byte of a non-empty text followed by another. -/
theorem cur_append_of_ne_nil (seg rest : List Nat) (h : seg ≠ []) :
    cur (seg ++ rest) = cur seg := by
  cases seg with
  | nil => exact absurd rfl h
  | cons c seg => rfl

/-- A non-empty run of digits starts with a digit. -/
theorem is_digit_cur (seg : List Nat) (hne : seg ≠ [])
    (hseg : ∀ c ∈ seg, is_digit c = true) : 48 ≤ cur seg ∧ cur seg ≤ 57 := by
  cases seg with
  | nil => exact absurd rfl hne
  | cons c seg => exact (is_digit_iff c).1 (hseg c (List.mem_cons_self _ _))

/-- One iteration of the outer loop on a well-formed segment. -/
theorem part_find_loop_segment (fuel : Nat) (p : MessagePart) (seg rest : List Nat)
    (hne : seg ≠ []) (hseg : ∀ c ∈ seg, is_digit c = true)
    (hrest : cur rest = 0 ∨ cur rest = 46) :
    part_find_loop (fuel + 1) (some p) (seg ++ rest) =
      if p.multipart then
        part_find_loop fuel (part_find_child p.children (num_accum 0 seg))
          (if cur rest = 46 then rest.tail else rest)
      else if num_accum 0 seg ≠ 1 then PartFound.null
      else part_find_loop fuel (some p) (if cur rest = 46 then rest.tail else rest) := by
  have hd : 48 ≤ cur (seg ++ rest) ∧ cur (seg ++ rest) ≤ 57 := by
    rw [cur_append_of_ne_nil seg rest hne]
    exact is_digit_cur seg hne hseg
  simp only [part_find_loop, if_pos hd, part_find_num_digits seg hseg rest hrest 0]

/-- The outer loop on `n1.n2.....nk` and a suffix follows the walk of the specification. -/
theorem part_find_loop_walk (segs : List (List Nat))
    (hsegs : ∀ seg ∈ segs, seg ≠ [] ∧ (∀ c ∈ seg, is_digit c = true)
      ∧ 1 ≤ decimal_value seg ∧ decimal_value seg < UINT_MOD)
    (hne : segs ≠ []) (tail S : List Nat)
    (htail : (tail = [] ∧ S = []) ∨ tail = 46 :: S)
    (hS : is_digit (cur S) = false) (fuel : Nat) (p : MessagePart)
    (hfuel : segs.length + 1 ≤ fuel) :
    part_find_loop fuel (some p) (dotted segs ++ tail)
      = part_result (part_walk p (segs.map decimal_value)) S := by
  induction segs generalizing fuel p with
  | nil => exact absurd rfl hne
  | cons seg segs ih =>
    obtain ⟨hsne, hdig, hge, hlt⟩ := hsegs seg (List.mem_cons_self _ _)
    have hnum : num_accum 0 seg = decimal_value seg := by
      rw [num_accum_eq_mod, Nat.mod_eq_of_lt hlt]
    obtain ⟨fuel1, rfl⟩ : ∃ k, fuel = k + 1 := ⟨fuel - 1, by simp at hfuel; omega⟩
    have hchild : ∀ cs : List MessagePart,
        part_find_child cs (decimal_value seg) = cs[decimal_value seg - 1]? :=
      fun cs => part_find_child_eq cs _ hge
    cases segs with
    | nil =>
      have hfuel1 : ∃ k, fuel1 = k + 1 := ⟨fuel1 - 1, by simp at hfuel; omega⟩
      obtain ⟨fuel2, rfl⟩ := hfuel1
      have hrest : cur tail = 0 ∨ cur tail = 46 := by
        rcases htail with ⟨h1, _⟩ | h1
        · left; rw [h1]; rfl
        · right; rw [h1]; rfl
      have hpath2 : (if cur tail = 46 then tail.tail else tail) = S := by
        rcases htail with ⟨h1, h2⟩ | h1
        · rw [h1, h2]; rfl
        · rw [h1]; rfl
      show part_find_loop (fuel2 + 1 + 1) (some p) (seg ++ tail) = _
      rw [part_find_loop_segment _ p seg tail hsne hdig hrest, hpath2, hnum]
      cases hm : p.multipart with
      | true =>
        simp only [if_true, hchild, List.map, part_walk, part_step, hm, if_pos hge]
        rw [part_find_loop_stop _ _ _ hS]
        cases p.children[decimal_value seg - 1]? <;> rfl
      | false =>
        by_cases h1 : decimal_value seg = 1
        · simp [h1, part_find_loop_stop _ _ _ hS, part_result, part_walk, part_step, hm]
        · simp [h1, part_result, part_walk, part_step, hm]
    | cons seg1 segs =>
      have hpath : dotted (seg :: seg1 :: segs) ++ tail
          = seg ++ (46 :: (dotted (seg1 :: segs) ++ tail)) := by
        simp [dotted]
      have hih : ∀ q : MessagePart,
          part_find_loop fuel1 (some q) (dotted (seg1 :: segs) ++ tail)
            = part_result (part_walk q ((seg1 :: segs).map decimal_value)) S :=
        fun q => ih (fun s hs => hsegs s (List.mem_cons_of_mem _ hs)) (by simp) fuel1 q
          (by simp at hfuel ⊢; omega)
      obtain ⟨fuel2, hf2⟩ : ∃ k, fuel1 = k + 1 := ⟨fuel1 - 1, by simp at hfuel; omega⟩
      have hcur : cur (46 :: (dotted (seg1 :: segs) ++ tail)) = 46 := rfl
      rw [hpath, part_find_loop_segment _ p seg _ hsne hdig (Or.inr hcur), hnum]
      simp only [hcur, if_true, List.tail_cons]
      rw [List.map_cons, part_walk, part_step]
      cases hm : p.multipart with
      | true =>
        simp only [if_true, hchild, if_pos hge]
        cases hq : p.children[decimal_value seg - 1]? with
        | none => rw [hf2]; rfl
        | some q => exact hih q
      | false =>
        by_cases h1 : decimal_value seg = 1
        · simp only [h1]
          exact hih p
        · simp [h1, part_result]


/-- The outer loop returns `NULL` when it reaches a malformed token. -/
theorem part_find_loop_malformed (segs : List (List Nat))
    (hsegs : ∀ seg ∈ segs, seg ≠ [] ∧ ∀ c ∈ seg, is_digit c = true)
    (bad : List Nat) (hfirst : is_digit (cur bad) = true)
    (hsep : ∀ c ∈ bad, c ≠ 46 ∧ c ≠ 0) (hbad : ∃ c ∈ bad, is_digit c = false)
    (rest : List Nat) (fuel : Nat) (part : Option MessagePart)
    (hfuel : segs.length + 1 ≤ fuel) :
    part_find_loop fuel part (dotted_before segs ++ (bad ++ rest)) = PartFound.null := by
  induction segs generalizing fuel part with
  | nil =>
    obtain ⟨fuel1, rfl⟩ : ∃ k, fuel = k + 1 := ⟨fuel - 1, by simp at hfuel; omega⟩
    cases part with
    | none => rfl
    | some p =>
      have hne : bad ≠ [] := by
        rintro rfl
        simp at hbad
      have hd : 48 ≤ cur (bad ++ rest) ∧ cur (bad ++ rest) ≤ 57 := by
        rw [cur_append_of_ne_nil bad rest hne]
        exact (is_digit_iff _).1 hfirst
      simp only [dotted_before, List.nil_append, part_find_loop, if_pos hd,
        part_find_num_malformed bad hsep hbad rest 0]
  | cons seg segs ih =>
    obtain ⟨fuel1, rfl⟩ : ∃ k, fuel = k + 1 := ⟨fuel - 1, by simp at hfuel; omega⟩
    have hih : ∀ q : Option MessagePart,
        part_find_loop fuel1 q (dotted_before segs ++ (bad ++ rest)) = PartFound.null :=
      fun q => ih (fun s hs => hsegs s (List.mem_cons_of_mem _ hs)) fuel1 q
        (by simp at hfuel ⊢; omega)
    cases part with
    | none => rfl
    | some p =>
      obtain ⟨hsne, hdig⟩ := hsegs seg (List.mem_cons_self _ _)
      have hpath : dotted_before (seg :: segs) ++ (bad ++ rest)
          = seg ++ (46 :: (dotted_before segs ++ (bad ++ rest))) := by
        simp [dotted_before]
      have hcur : cur (46 :: (dotted_before segs ++ (bad ++ rest))) = 46 := rfl
      rw [hpath, part_find_loop_segment _ p seg _ hsne hdig (Or.inr hcur)]
      simp only [hcur, if_true, List.tail_cons, hih]
      split
      · rfl
      · split <;> rfl

/-- A dotted path of non-empty segments has at least one byte per segment. -/
theorem length_le_dotted (segs : List (List Nat)) (hsegs : ∀ seg ∈ segs, seg ≠ []) :
    segs.length ≤ (dotted segs).length := by
  induction segs with
  | nil => simp
  | cons seg segs ih =>
    have h1 : 1 ≤ seg.length := by
      have := hsegs seg (List.mem_cons_self _ _)
      exact List.length_pos.2 this
    cases segs with
    | nil => simpa [dotted] using h1
    | cons seg1 segs =>
      have := ih (fun s hs => hsegs s (List.mem_cons_of_mem _ hs))
      simp only [dotted, List.length_append, List.length_cons] at this ⊢
      omega

/-- A path of dot-ended segments has at least one byte per segment. -/
theorem length_le_dotted_before (segs : List (List Nat)) :
    segs.length ≤ (dotted_before segs).length := by
  induction segs with
  | nil => simp
  | cons seg segs ih =>
    simp only [dotted_before, List.length_append, List.length_cons]
    omega

/-- The digit loop never lengthens the path, and shortens it when it starts at a digit. -/
theorem part_find_num_length (path : List Nat) (num n : Nat) (path1 : List Nat)
    (h : part_find_num path num = some (n, path1)) :
    path1.length ≤ path.length
      ∧ ((48 ≤ cur path ∧ cur path ≤ 57) → path1.length < path.length) := by
  induction path generalizing num with
  | nil =>
    simp only [part_find_num, Option.some.injEq, Prod.mk.injEq] at h
    obtain ⟨_, rfl⟩ := h
    exact ⟨Nat.le_refl _, fun hd => by simp [cur] at hd⟩
  | cons c path ih =>
    by_cases h1 : c = 0 ∨ c = 46
    · simp only [part_find_num, if_pos h1, Option.some.injEq, Prod.mk.injEq] at h
      obtain ⟨_, rfl⟩ := h
      refine ⟨Nat.le_refl _, fun hd => ?_⟩
      simp only [cur, List.headD_cons] at hd
      omega
    · by_cases h2 : c < 48 ∨ c > 57
      · simp [part_find_num, h1, h2] at h
      · simp only [part_find_num, if_neg h1, if_neg h2] at h
        have := (ih _ h).1
        simp only [List.length_cons]
        exact ⟨by omega, fun _ => by omega⟩

/-- With `length + 1` tests of its condition the outer loop of `part_find` comes to an end. -/
theorem part_find_loop_returns (fuel : Nat) (part : Option MessagePart) (path : List Nat)
    (hfuel : path.length + 1 ≤ fuel) :
    part_find_loop fuel part path ≠ PartFound.out_of_fuel := by
  induction fuel generalizing part path with
  | zero => omega
  | succ fuel ih =>
    cases part with
    | none => simp [part_find_loop]
    | some p =>
      by_cases hd : 48 ≤ cur path ∧ cur path ≤ 57
      · simp only [part_find_loop, if_pos hd]
        cases hnum : part_find_num path 0 with
        | none => simp
        | some r =>
          obtain ⟨num, path1⟩ := r
          have hlen := (part_find_num_length path 0 num path1 hnum).2 hd
          have htail : (if cur path1 = 46 then path1.tail else path1).length
              ≤ path1.length := by
            split
            · simp
            · exact Nat.le_refl _
          have hfuel2 : (if cur path1 = 46 then path1.tail else path1).length + 1 ≤ fuel := by
            omega
          simp only []
          split
          · exact ih _ _ hfuel2
          · split
            · simp
            · exact ih _ _ hfuel2
      · simp [part_find_loop, hd]

/-- The function `part_find` always returns: not-found or a part with a suffix. -/
theorem part_find_returns (sect : MailFetchBodyData) (ctx : FetchContext) :
    part_find sect ctx ≠ PartFound.out_of_fuel :=
  part_find_loop_returns _ _ _ (Nat.le_refl _)

/-- C3 (evaluation at the failing input): on a multipart root with exactly one child,
section `0` resolves to that child, exactly as section `1` does, instead of
not-found; section `9` is not-found. -/
theorem part_find_zero_returns_first_child :
    part_find ⟨bytes "0", 0, 0, false⟩ ⟨⟨some sample_root, none⟩, ⟨[], fun _ => 0⟩, true⟩
      = PartFound.found sample_leaf []
    ∧ part_find ⟨bytes "1", 0, 0, false⟩ ⟨⟨some sample_root, none⟩, ⟨[], fun _ => 0⟩, true⟩
      = PartFound.found sample_leaf []
    ∧ part_find ⟨bytes "9", 0, 0, false⟩ ⟨⟨some sample_root, none⟩, ⟨[], fun _ => 0⟩, true⟩
      = PartFound.null :=
  ⟨rfl, rfl, rfl⟩

/-- C4 (evaluation at the failing input): on a non-multipart root the one-segment path
`4294967297`, a number different from 1, resolves to the root itself, because
the `unsigned int` accumulator wraps to 1; the path `2` is not-found. -/
theorem part_find_wrapped_segment_selects_leaf :
    part_find ⟨bytes "4294967297", 0, 0, false⟩
        ⟨⟨some sample_leaf, none⟩, ⟨[], fun _ => 0⟩, true⟩
      = PartFound.found sample_leaf []
    ∧ part_find ⟨bytes "2", 0, 0, false⟩ ⟨⟨some sample_leaf, none⟩, ⟨[], fun _ => 0⟩, true⟩
      = PartFound.null :=
  ⟨rfl, rfl⟩

/-- C5 (counterexample): section `1.TEXT.2X` has the token `2X`, which starts with a digit
and contains a non-digit, yet `part_find` on a non-multipart root returns the
root with the suffix `TEXT.2X`, not not-found. -/
theorem part_find_ignores_tokens_of_suffix :
    has_malformed_token (bytes "1.TEXT.2X") = true
    ∧ part_find ⟨bytes "1.TEXT.2X", 0, 0, false⟩
        ⟨⟨some sample_leaf, none⟩, ⟨[], fun _ => 0⟩, true⟩
      = PartFound.found sample_leaf (bytes "TEXT.2X") :=
  ⟨by decide, rfl⟩

/-- C5 (amended): for a section `n1.n2.....nk` (k at least 1, every `ni` a non-empty
digit string of value from 1 to `2 ^ 32 - 1`) followed by nothing or by a dot
and a suffix `S` that does not start with a digit, `part_find` returns the node
reached by the steps of the specification from the root, with `S` as the
unconsumed suffix, and not-found when a step fails.  For a section made of
digit segments each followed by a dot and then a token that starts with a
digit and has a non-digit before its end, `part_find` returns not-found. -/
theorem part_find_numeric_path :
    (∀ (sect : MailFetchBodyData) (ctx : FetchContext) (root : MessagePart)
        (segs : List (List Nat)) (tail S : List Nat),
        ctx.cache.parts = some root →
        sect.section_str = dotted segs ++ tail →
        segs ≠ [] →
        (∀ seg ∈ segs, seg ≠ [] ∧ (∀ c ∈ seg, is_digit c = true)
          ∧ 1 ≤ decimal_value seg ∧ decimal_value seg < UINT_MOD) →
        ((tail = [] ∧ S = []) ∨ tail = 46 :: S) →
        is_digit (cur S) = false →
        part_find sect ctx = part_result (part_walk root (segs.map decimal_value)) S)
    ∧ (∀ (sect : MailFetchBodyData) (ctx : FetchContext)
        (segs : List (List Nat)) (bad rest : List Nat),
        sect.section_str = dotted_before segs ++ (bad ++ rest) →
        (∀ seg ∈ segs, seg ≠ [] ∧ ∀ c ∈ seg, is_digit c = true) →
        is_digit (cur bad) = true →
        (∀ c ∈ bad, c ≠ 46 ∧ c ≠ 0) →
        (∃ c ∈ bad, is_digit c = false) →
        part_find sect ctx = PartFound.null) := by
  constructor
  · intro sect ctx root segs tail S hroot hsect hne hsegs htail hS
    unfold part_find
    rw [hroot, hsect]
    apply part_find_loop_walk segs hsegs hne tail S htail hS
    have := length_le_dotted segs (fun s hs => (hsegs s hs).1)
    simp only [List.length_append]
    omega
  · intro sect ctx segs bad rest hsect hsegs hfirst hsep hbad
    unfold part_find
    rw [hsect]
    apply part_find_loop_malformed segs hsegs bad hfirst hsep hbad rest
    have := length_le_dotted_before segs
    simp only [List.length_append]
    omega

/-- C5 (amended), at section `1.1.TEXT` on the sample root, which resolves to the
leaf with suffix `TEXT`, and at section `1.2X`, which is not-found. -/
theorem part_find_numeric_path_witness :
    part_find ⟨bytes "1.1.TEXT", 0, 0, false⟩
        ⟨⟨some sample_root, none⟩, ⟨[], fun _ => 0⟩, true⟩
      = part_result (part_walk sample_root ([bytes "1", bytes "1"].map decimal_value))
          (bytes "TEXT")
    ∧ part_find ⟨bytes "1.2X", 0, 0, false⟩
        ⟨⟨some sample_root, none⟩, ⟨[], fun _ => 0⟩, true⟩
      = PartFound.null :=
  ⟨part_find_numeric_path.1 ⟨bytes "1.1.TEXT", 0, 0, false⟩
      ⟨⟨some sample_root, none⟩, ⟨[], fun _ => 0⟩, true⟩ sample_root
      [bytes "1", bytes "1"] (bytes ".TEXT") (bytes "TEXT") rfl (by decide) (by decide)
      (by decide) (Or.inr (by decide)) (by decide),
   part_find_numeric_path.2 ⟨bytes "1.2X", 0, 0, false⟩
      ⟨⟨some sample_root, none⟩, ⟨[], fun _ => 0⟩, true⟩
      [bytes "1"] (bytes "2X") [] (by decide) (by decide) (by decide) (by decide)
      (by decide)⟩

/-! ## Properties: header field filter -/

/-- A C string without a `0` byte is at its end exactly when it is empty. -/
theorem cur_eq_zero_iff (field : List Nat) (h0 : 0 ∉ field) : cur field = 0 ↔ field = [] := by
  cases field with
  | nil => simp [cur]
  | cons c field =>
    have : c ≠ 0 := fun h => h0 (h ▸ List.mem_cons_self _ _)
    simp [cur, this]

/-- The inner loop of `header_match` accepts exactly the uppercased span. -/
theorem header_match_field_iff (span field : List Nat) (hne : field ≠ []) (h0 : 0 ∉ field) :
    header_match_field field span = true ↔ field = span.map i_toupper := by
  induction span generalizing field with
  | nil => simp [header_match_field, hne]
  | cons c name ih =>
    cases field with
    | nil => exact absurd rfl hne
    | cons f0 ft =>
      have h0t : 0 ∉ ft := fun h => h0 (List.mem_cons_of_mem _ h)
      by_cases hc : i_toupper c = f0
      · have hc1 : ¬ i_toupper c ≠ cur (f0 :: ft) := by simpa [cur] using hc
        simp only [header_match_field, if_neg hc1, List.tail_cons, List.map_cons]
        by_cases hend : cur ft = 0
        · have hft : ft = [] := (cur_eq_zero_iff ft h0t).1 hend
          subst hft
          simp [hc, cur]
        · have hft : ft ≠ [] := fun h => hend ((cur_eq_zero_iff ft h0t).2 h)
          rw [if_neg hend, ih ft hft h0t]
          simp [hc]
      · have hc1 : i_toupper c ≠ cur (f0 :: ft) := by simpa [cur] using hc
        simp only [header_match_field, if_pos hc1, List.map_cons]
        constructor
        · intro h; cases h
        · intro h
          injection h with h1 _
          exact absurd h1.symm hc

/-- The loop of `header_match` accepts when some non-empty entry is the uppercased span. -/
theorem header_match_loop_iff (fields : List (List Nat)) (span : List Nat)
    (h0 : ∀ field ∈ fields, 0 ∉ field) :
    header_match_loop fields span = true
      ↔ ∃ field ∈ fields, field ≠ [] ∧ field = span.map i_toupper := by
  induction fields with
  | nil => simp [header_match_loop]
  | cons field fields ih =>
    have h0f := h0 field (List.mem_cons_self _ _)
    have ih1 := ih (fun f hf => h0 f (List.mem_cons_of_mem _ hf))
    by_cases hempty : cur field = 0
    · have hf : field = [] := (cur_eq_zero_iff field h0f).1 hempty
      simp only [header_match_loop, if_pos hempty, ih1, List.mem_cons]
      constructor
      · rintro ⟨f, hf1, hf2⟩
        exact ⟨f, Or.inr hf1, hf2⟩
      · rintro ⟨f, hf1 | hf1, hf2, hf3⟩
        · exact absurd (hf1 ▸ hf) hf2
        · exact ⟨f, hf1, hf2, hf3⟩
    · have hf : field ≠ [] := fun h => hempty ((cur_eq_zero_iff field h0f).2 h)
      have hm := header_match_field_iff span field hf h0f
      simp only [header_match_loop, if_neg hempty, List.mem_cons]
      by_cases hmatch : header_match_field field span = true
      · simp only [hmatch, if_true, true_iff]
        exact ⟨field, Or.inl rfl, hf, hm.1 hmatch⟩
      · simp only [hmatch, Bool.false_eq_true, if_false, ih1]
        constructor
        · rintro ⟨f, hf1, hf2⟩
          exact ⟨f, Or.inr hf1, hf2⟩
        · rintro ⟨f, hf1 | hf1, hf2, hf3⟩
          · exact absurd (hm.2 (hf1 ▸ hf3)) hmatch
          · exact ⟨f, hf1, hf2, hf3⟩

/-- C6: for a field list of C strings and a name of `size > 0` bytes, `header_match`
is true exactly when some non-empty entry has `size` bytes and equals the name
with every byte uppercased; and its result is the same for every other name
that differs from the name in letter case only. -/
theorem header_match_iff (fields : List (List Nat)) (name : List Nat) (size : Nat)
    (hsize : 0 < size) (hname : size ≤ name.length)
    (hfields : ∀ field ∈ fields, 0 ∉ field) :
    (header_match fields name size = true
      ↔ ∃ field ∈ fields, field ≠ [] ∧ field.length = size
          ∧ field = (name.take size).map i_toupper)
    ∧ (∀ name1 : List Nat, size ≤ name1.length →
        (name1.take size).map i_toupper = (name.take size).map i_toupper →
        header_match fields name1 size = header_match fields name size) := by
  have _hassert : size ≠ 0 := by omega
  have hiff : ∀ nm : List Nat, header_match fields nm size = true
      ↔ ∃ field ∈ fields, field ≠ [] ∧ field = (nm.take size).map i_toupper :=
    fun nm => header_match_loop_iff fields (nm.take size) hfields
  constructor
  · rw [hiff name]
    constructor
    · rintro ⟨f, hf1, hf2, hf3⟩
      refine ⟨f, hf1, hf2, ?_, hf3⟩
      rw [hf3, List.length_map, List.length_take]
      omega
    · rintro ⟨f, hf1, hf2, _, hf3⟩
      exact ⟨f, hf1, hf2, hf3⟩
  · intro name1 _ hcase
    have h1 := hiff name1
    have h2 := hiff name
    rw [hcase] at h1
    cases hA : header_match fields name1 size <;> cases hB : header_match fields name size
    · rfl
    · exact absurd (h1.2 (h2.1 hB)) (by simp [hA])
    · exact absurd (h2.2 (h1.1 hA)) (by simp [hB])
    · rfl

/-- C6, at the list `FROM`, `SUBJECT`, empty entry, and the name of `Subject: Hi`. -/
theorem header_match_iff_witness :
    (0 < 7 ∧ 7 ≤ (bytes "Subject: Hi\r\n").length
      ∧ ∀ field ∈ [bytes "FROM", bytes "SUBJECT", []], 0 ∉ field)
    ∧ ((header_match [bytes "FROM", bytes "SUBJECT", []] (bytes "Subject: Hi\r\n") 7 = true
      ↔ ∃ field ∈ [bytes "FROM", bytes "SUBJECT", []], field ≠ [] ∧ field.length = 7
          ∧ field = ((bytes "Subject: Hi\r\n").take 7).map i_toupper)
    ∧ (∀ name1 : List Nat, 7 ≤ name1.length →
        (name1.take 7).map i_toupper = ((bytes "Subject: Hi\r\n").take 7).map i_toupper →
        header_match [bytes "FROM", bytes "SUBJECT", []] name1 7
          = header_match [bytes "FROM", bytes "SUBJECT", []] (bytes "Subject: Hi\r\n") 7)) :=
  ⟨⟨by decide, by decide, by decide⟩,
    header_match_iff [bytes "FROM", bytes "SUBJECT", []] (bytes "Subject: Hi\r\n") 7
      (by decide) (by decide) (by decide)⟩

/-- C7 (evaluation at the failing input): for the field `Mime-Version: 1.0` the name
`Mime-Version` of 12 bytes, followed in the buffer by `:`, is not matched by
`header_match_mime`, the 13-byte comparison failing on the byte after the
name; `Content-Type` is matched, and the bare name `Content-` of 8 bytes is not. -/
theorem header_match_mime_misses_mime_version :
    header_match_mime [] (bytes "Mime-Version: 1.0\r\n") 12 = false
    ∧ header_match_mime [] (bytes "Content-Type: text/plain\r\n") 12 = true
    ∧ header_match_mime [] (bytes "Content-: x\r\n") 8 = false := by
  refine ⟨?_, ?_, ?_⟩ <;> decide

/-! ## Properties: header copier -/

/-- The bytes between two offsets of a text given in three pieces. -/
theorem slice_pending (done pending after : List Nat) :
    ((done ++ pending ++ after).drop done.length).take pending.length = pending := by
  rw [List.append_assoc, List.drop_left', List.take_left']
  · rfl
  · rfl

/-- Invariant of the copy loop: what is stored, followed by the bytes not yet copied,
is the normalised text read so far. -/
theorem fetch_header_field_loop_spec (name l : List Nat) :
    ∀ (p : Nat) (cr : Option Nat) (field_start : Nat) (dest done pending after : List Nat)
      (prev_cr : Bool),
      name = done ++ pending ++ (l ++ after) →
      field_start = done.length →
      p = done.length + pending.length →
      (∀ q, cr = some q → q < p) →
      (cr.map (fun q => q + 1) = some p ↔ prev_cr = true) →
      (fetch_header_field_loop name l p cr field_start dest).1 ≤ p + l.length
      ∧ (fetch_header_field_loop name l p cr field_start dest).2
          ++ (name.drop (fetch_header_field_loop name l p cr field_start dest).1).take
              (p + l.length - (fetch_header_field_loop name l p cr field_start dest).1)
        = dest ++ pending ++ insert_missing_cr prev_cr l := by
  induction l with
  | nil =>
    intro p cr field_start dest done pending after prev_cr hname hfs hp _ _
    simp only [fetch_header_field_loop, List.length_nil, Nat.add_zero, insert_missing_cr,
      List.append_nil]
    refine ⟨by omega, ?_⟩
    have h1 : p - field_start = pending.length := by omega
    rw [h1, hfs, hname]
    simp only [List.nil_append]
    rw [slice_pending]
  | cons c rest ih =>
    intro p cr field_start dest done pending after prev_cr hname hfs hp hlt hcr
    by_cases h13 : c = 13
    · have hstep : fetch_header_field_loop name (c :: rest) p cr field_start dest
          = fetch_header_field_loop name rest (p + 1) (some p) field_start dest := by
        simp only [fetch_header_field_loop, if_pos h13]
      have hih := ih (p + 1) (some p) field_start dest done (pending ++ [c]) after true
        (by rw [hname]; simp) hfs (by simp; omega)
        (fun q hq => by injection hq with hq; omega) (by simp)
      rw [hstep]
      have hN : insert_missing_cr prev_cr (c :: rest) = c :: insert_missing_cr true rest := by
        simp [insert_missing_cr, h13]
      rw [hN]
      simp only [List.length_cons]
      have hlen : p + (rest.length + 1) = p + 1 + rest.length := by omega
      rw [hlen]
      refine ⟨hih.1, ?_⟩
      rw [hih.2]
      simp
    · by_cases h10 : c = 10 ∧ cr.map (fun q => q + 1) ≠ some p
      · have hstep : fetch_header_field_loop name (c :: rest) p cr field_start dest
            = fetch_header_field_loop name rest (p + 1) cr (p + 1)
                (dest ++ (name.drop field_start).take (p - field_start) ++ [13, 10]) := by
          simp only [fetch_header_field_loop, if_neg h13, if_pos h10]
        have hprev : prev_cr = false := by
          cases prev_cr with
          | false => rfl
          | true => exact absurd (hcr.2 rfl) h10.2
        have hcopy : (name.drop field_start).take (p - field_start) = pending := by
          have h1 : p - field_start = pending.length := by omega
          rw [h1, hfs, hname, slice_pending]
        have hih := ih (p + 1) cr (p + 1)
          (dest ++ (name.drop field_start).take (p - field_start) ++ [13, 10])
          (done ++ pending ++ [c]) [] after false
          (by rw [hname]; simp) (by simp; omega) (by simp; omega)
          (fun q hq => by have := hlt q hq; omega)
          (by
            constructor
            · intro h
              cases cr with
              | none => simp at h
              | some q =>
                have := hlt q rfl
                simp at h
                omega
            · intro h; cases h)
        rw [hstep]
        have hN : insert_missing_cr prev_cr (c :: rest)
            = 13 :: 10 :: insert_missing_cr false rest := by
          simp [insert_missing_cr, h10.1, hprev]
        rw [hN]
        simp only [List.length_cons]
        have hlen : p + (rest.length + 1) = p + 1 + rest.length := by omega
        rw [hlen]
        refine ⟨hih.1, ?_⟩
        rw [hih.2, hcopy]
        simp
      · have hstep : fetch_header_field_loop name (c :: rest) p cr field_start dest
            = fetch_header_field_loop name rest (p + 1) cr field_start dest := by
          simp only [fetch_header_field_loop, if_neg h13, if_neg h10]
        have hih := ih (p + 1) cr field_start dest done (pending ++ [c]) after false
          (by rw [hname]; simp) hfs (by simp; omega)
          (fun q hq => by have := hlt q hq; omega)
          (by
            constructor
            · intro h
              cases cr with
              | none => simp at h
              | some q =>
                have := hlt q rfl
                simp at h
                omega
            · intro h; cases h)
        rw [hstep]
        have hN : insert_missing_cr prev_cr (c :: rest)
            = c :: insert_missing_cr false rest := by
          have hcond : ¬ (c = 10 ∧ prev_cr = false) := by
            rintro ⟨hc, hp0⟩
            apply h10
            refine ⟨hc, ?_⟩
            intro h
            have := hcr.1 h
            rw [hp0] at this
            cases this
          simp [insert_missing_cr, hcond, h13]
        rw [hN]
        simp only [List.length_cons]
        have hlen : p + (rest.length + 1) = p + 1 + rest.length := by omega
        rw [hlen]
        refine ⟨hih.1, ?_⟩
        rw [hih.2]
        simp


/-- One call of `fetch_header_field` appends the normalised span and CR LF of a
wanted field, and nothing for any other field. -/
theorem fetch_header_field_eq (hdr : HeaderField) (ctx : FetchHeaderFieldContext) :
    fetch_header_field hdr ctx =
      { ctx with dest := ctx.dest ++
          (if ctx.match_func ctx.fields hdr.name hdr.name_len then
            insert_missing_cr false hdr.span ++ [13, 10]
          else []) } := by
  unfold fetch_header_field
  cases hm : ctx.match_func ctx.fields hdr.name hdr.name_len with
  | false => simp
  | true =>
    simp only [Bool.not_true, Bool.false_eq_true, if_false, if_true]
    have hspec := fetch_header_field_loop_spec hdr.name
      (hdr.name.take (hdr.value + hdr.value_len)) 0 none 0 ctx.dest [] []
      (hdr.name.drop (hdr.value + hdr.value_len)) false
      (by simp) rfl rfl (fun q hq => by cases hq) (by simp)
    generalize fetch_header_field_loop hdr.name
      (hdr.name.take (hdr.value + hdr.value_len)) 0 none 0 ctx.dest = r at hspec
    obtain ⟨hle, heq⟩ := hspec
    simp only [Nat.zero_add, List.append_nil] at hle heq
    have hdest : (if r.1 ≠ hdr.value + hdr.value_len then
          r.2 ++ (hdr.name.drop r.1).take (hdr.value + hdr.value_len - r.1) else r.2)
        = ctx.dest ++ insert_missing_cr false hdr.span := by
      rw [← show _ = ctx.dest ++ insert_missing_cr false hdr.span from heq]
      rw [List.length_take] at hle ⊢
      by_cases hfit : hdr.value + hdr.value_len ≤ hdr.name.length
      · rw [Nat.min_eq_left hfit] at hle ⊢
        by_cases hr : r.1 = hdr.value + hdr.value_len
        · simp [hr]
        · simp [hr]
      · have hlen : min (hdr.value + hdr.value_len) hdr.name.length = hdr.name.length := by
          omega
        rw [hlen] at hle ⊢
        have hr : r.1 ≠ hdr.value + hdr.value_len := by omega
        rw [if_pos hr]
        congr 1
        rw [List.take_of_length_le, List.take_of_length_le]
        · simp
        · simp; omega
    rw [hdest]
    simp

/-- The callbacks on a list of fields append `copied_fields` of the list. -/
theorem fetch_header_fields_foldl (fields : List (List Nat))
    (match_func : List (List Nat) → List Nat → Nat → Bool) (hdrs : List HeaderField)
    (dest : List Nat) :
    (hdrs.foldl (fun ctx hdr => fetch_header_field hdr ctx)
      { dest := dest, fields := fields, match_func := match_func }).dest
      = dest ++ copied_fields fields match_func hdrs := by
  induction hdrs generalizing dest with
  | nil => simp [copied_fields]
  | cons hdr hdrs ih =>
    have h := ih (dest ++
      (if match_func fields hdr.name hdr.name_len then
        insert_missing_cr false hdr.span ++ [13, 10]
      else []))
    rw [List.foldl_cons, fetch_header_field_eq]
    simp only [copied_fields]
    rw [← List.append_assoc]
    exact h

/-- A text without a bare LF is left as it is. -/
theorem insert_missing_cr_of_count_zero (f : List Nat) (prev_cr : Bool)
    (h : missing_cr_count prev_cr f = 0) : insert_missing_cr prev_cr f = f := by
  induction f generalizing prev_cr with
  | nil => rfl
  | cons c f ih =>
    simp only [missing_cr_count] at h
    have hc : ¬ (c = 10 ∧ prev_cr = false) := by
      intro hc
      rw [if_pos hc] at h
      omega
    rw [if_neg hc] at h
    simp only [insert_missing_cr, if_neg hc]
    rw [ih _ (by omega)]

/-- The bytes stored by `fetch_header_fields` are `copied_fields` of the delivered fields. -/
theorem fetch_header_fields_copied (message_parse_header : List Nat → List HeaderField)
    (inbuf : List Nat) (fields : List (List Nat))
    (match_func : List (List Nat) → List Nat → Nat → Bool) :
    fetch_header_fields message_parse_header inbuf fields match_func
      = copied_fields fields match_func (message_parse_header inbuf) := by
  unfold fetch_header_fields
  rw [fetch_header_fields_foldl]
  simp

/-- Bare LFs of a text in two pieces. -/
theorem missing_cr_count_append (a b : List Nat) (prev_cr : Bool) :
    missing_cr_count prev_cr (a ++ b)
      = missing_cr_count prev_cr a + missing_cr_count (ends_cr prev_cr a) b := by
  induction a generalizing prev_cr with
  | nil => simp [missing_cr_count, ends_cr]
  | cons c a ih =>
    rw [List.cons_append]
    simp only [missing_cr_count, ends_cr]
    rw [ih]
    omega

/-- The normalised text has no bare LF. -/
theorem missing_cr_count_insert (f : List Nat) (prev_cr : Bool) :
    missing_cr_count prev_cr (insert_missing_cr prev_cr f) = 0 := by
  induction f generalizing prev_cr with
  | nil => rfl
  | cons c f ih =>
    by_cases hc : c = 10 ∧ prev_cr = false
    · have h := ih false
      simp only [insert_missing_cr, if_pos hc, missing_cr_count]
      simpa using h
    · have h := ih (decide (c = 13))
      simp only [insert_missing_cr, if_neg hc, missing_cr_count, h]

/-- The normalisation adds one byte per bare LF. -/
theorem length_insert_missing_cr (f : List Nat) (prev_cr : Bool) :
    (insert_missing_cr prev_cr f).length = f.length + missing_cr_count prev_cr f := by
  induction f generalizing prev_cr with
  | nil => rfl
  | cons c f ih =>
    by_cases hc : c = 10 ∧ prev_cr = false
    · have h := ih false
      have h13 : decide (c = 13) = false := by
        simp only [decide_eq_false_iff_not]
        omega
      simp only [insert_missing_cr, if_pos hc, missing_cr_count, List.length_cons, h, h13]
      omega
    · have h := ih (decide (c = 13))
      simp only [insert_missing_cr, if_neg hc, missing_cr_count, List.length_cons, h]
      omega

/-- The copied fields have no bare LF. -/
theorem missing_cr_count_copied (fields : List (List Nat))
    (match_func : List (List Nat) → List Nat → Nat → Bool) (hdrs : List HeaderField) :
    missing_cr_count false (copied_fields fields match_func hdrs) = 0 := by
  induction hdrs with
  | nil => rfl
  | cons hdr hdrs ih =>
    simp only [copied_fields]
    split
    · rw [List.append_assoc, missing_cr_count_append, missing_cr_count_insert]
      simp [missing_cr_count, ih]
    · simpa using ih

/-- The copied fields are empty or end with CR LF. -/
theorem copied_fields_ends_crlf (fields : List (List Nat))
    (match_func : List (List Nat) → List Nat → Nat → Bool) (hdrs : List HeaderField) :
    copied_fields fields match_func hdrs = []
      ∨ ∃ front, copied_fields fields match_func hdrs = front ++ [13, 10] := by
  induction hdrs with
  | nil => left; rfl
  | cons hdr hdrs ih =>
    simp only [copied_fields]
    rcases ih with h | ⟨front, h⟩
    · rw [h]
      split
      · right
        exact ⟨insert_missing_cr false hdr.span, by simp⟩
      · left; rfl
    · right
      rw [h]
      exact ⟨_, (List.append_assoc _ _ _).symm⟩

/-- In a text without a bare LF every LF follows a CR. -/
theorem lf_after_cr_of_count_zero (l : List Nat) (prev_cr : Bool)
    (h : missing_cr_count prev_cr l = 0) (i : Nat) (hi : l[i]? = some 10) :
    (i = 0 ∧ prev_cr = true) ∨ ∃ j, i = j + 1 ∧ l[j]? = some 13 := by
  induction l generalizing prev_cr i with
  | nil => simp at hi
  | cons c l ih =>
    simp only [missing_cr_count] at h
    cases i with
    | zero =>
      left
      simp at hi
      subst hi
      cases prev_cr with
      | true => exact ⟨rfl, rfl⟩
      | false => simp at h
    | succ i =>
      right
      simp only [List.getElem?_cons_succ] at hi
      rcases ih (decide (c = 13)) (by omega) i hi with ⟨h0, hc⟩ | ⟨j, hj, hjc⟩
      · refine ⟨0, by omega, ?_⟩
        have hc13 : c = 13 := by simpa using hc
        simp [hc13]
      · exact ⟨j + 1, by omega, by simpa using hjc⟩

/-- Whether a text in two pieces ends in a CR. -/
theorem ends_cr_append (a b : List Nat) (prev_cr : Bool) :
    ends_cr prev_cr (a ++ b) = ends_cr (ends_cr prev_cr a) b := by
  induction a generalizing prev_cr with
  | nil => rfl
  | cons c a ih =>
    rw [List.cons_append]
    simp only [ends_cr]
    rw [ih]

/-- A line of a header block does not end in a CR. -/
theorem ends_cr_line (line : HeaderLine) (prev_cr : Bool) :
    ends_cr prev_cr line.bytes = false := by
  cases line with
  | field span name_len value crlf =>
    cases crlf <;> simp [HeaderLine.bytes, ends_cr_append, ends_cr]
  | skipped l => simp [HeaderLine.bytes, ends_cr_append, ends_cr]

/-- The virtual size of a block is the sum of the virtual sizes of its lines. -/
theorem virtual_size_of_cons (line : HeaderLine) (lines : List HeaderLine) :
    virtual_size_of (header_block (line :: lines))
      = virtual_size_of line.bytes + virtual_size_of (header_block lines) := by
  simp only [virtual_size_of, header_block, List.length_append, missing_cr_count_append,
    ends_cr_line]
  omega

/-- The copied fields of a block of valid lines fit in its virtual size. -/
theorem copied_fields_le_virtual_size (fields : List (List Nat))
    (match_func : List (List Nat) → List Nat → Nat → Bool) (lines : List HeaderLine)
    (rest : List Nat) (hvalid : ∀ line ∈ lines, line.valid = true) :
    (copied_fields fields match_func (delivered_fields lines rest)).length
      ≤ virtual_size_of (header_block lines) := by
  induction lines with
  | nil => simp [delivered_fields, copied_fields]
  | cons line lines ih =>
    have ih1 := ih (fun l hl => hvalid l (List.mem_cons_of_mem _ hl))
    have hv := hvalid line (List.mem_cons_self _ _)
    rw [virtual_size_of_cons]
    cases line with
    | skipped l =>
      simp only [delivered_fields]
      omega
    | field span name_len value crlf =>
      simp only [HeaderLine.valid, Bool.and_eq_true, decide_eq_true_eq, Bool.or_eq_true,
        Bool.not_eq_true'] at hv
      obtain ⟨hvalue, hterm⟩ := hv
      have hspan : (HeaderField.mk
            (span ++ ((if crlf then [13, 10] else [10]) ++ (header_block lines ++ rest)))
            name_len value (span.length - value)).span = span := by
        simp only [HeaderField.span]
        have h1 : value + (span.length - value) = span.length := by omega
        rw [h1, List.take_left']
        rfl
      have hline : span.length + missing_cr_count false span + 2
          = virtual_size_of (HeaderLine.field span name_len value crlf).bytes := by
        simp only [virtual_size_of, HeaderLine.bytes, List.length_append,
          missing_cr_count_append]
        cases crlf with
        | true => simp [missing_cr_count]; omega
        | false =>
          have he : ends_cr false span = false := by simpa using hterm
          simp [missing_cr_count, he]
          omega
      simp only [delivered_fields, copied_fields, hspan, List.length_append]
      have hblock : ∀ b : Bool,
          (if b = true then insert_missing_cr false span ++ [13, 10]
            else ([] : List Nat)).length
            ≤ span.length + missing_cr_count false span + 2 := by
        intro b
        cases b <;> simp [length_insert_missing_cr]
      have hb := hblock (match_func fields
        (span ++ ((if crlf then [13, 10] else [10]) ++ (header_block lines ++ rest))) name_len)
      omega

/-- C8: the bytes `fetch_header_fields` stores are, over the fields delivered by the
tokenizer whose name satisfies the predicate, in order, the span from name start
to value end with a CR inserted before every LF not preceded by a CR, followed
by CR LF; the returned count is the length of that text; and a span without
such an LF is copied byte for byte. -/
theorem fetch_header_fields_eq (message_parse_header : List Nat → List HeaderField)
    (inbuf : List Nat) (fields : List (List Nat))
    (match_func : List (List Nat) → List Nat → Nat → Bool) :
    fetch_header_fields message_parse_header inbuf fields match_func
        = copied_fields fields match_func (message_parse_header inbuf)
    ∧ (fetch_header_fields message_parse_header inbuf fields match_func).length
        = (copied_fields fields match_func (message_parse_header inbuf)).length
    ∧ (∀ f : List Nat, missing_cr_count false f = 0 → insert_missing_cr false f = f) := by
  have h := fetch_header_fields_copied message_parse_header inbuf fields match_func
  exact ⟨h, by rw [h], fun f hf => insert_missing_cr_of_count_zero f false hf⟩

/-- C8, on the sample header with the list `SUBJECT`: the span `Subject: Hi` has no
bare LF and is copied as it is. -/
theorem fetch_header_fields_eq_witness :
    missing_cr_count false (bytes "Subject: Hi") = 0
    ∧ insert_missing_cr false (bytes "Subject: Hi") = bytes "Subject: Hi"
    ∧ fetch_header_fields sample_parse (header_block sample_lines) [bytes "SUBJECT"]
        header_match
      = copied_fields [bytes "SUBJECT"] header_match
          (sample_parse (header_block sample_lines)) :=
  ⟨by decide,
   (fetch_header_fields_eq sample_parse (header_block sample_lines) [bytes "SUBJECT"]
      header_match).2.2 (bytes "Subject: Hi") (by decide),
   (fetch_header_fields_eq sample_parse (header_block sample_lines) [bytes "SUBJECT"]
      header_match).1⟩

/-- C9: for a header block made of valid lines, on which the tokenizer delivers the
fields of those lines, the bytes `fetch_header_fields` stores for any field list
and predicate are no more than the virtual size of the block (its length plus
its LFs not preceded by a CR); so `fetch_header_from`, given a size whose
virtual size is at least that, does not fail its `i_assert`. -/
theorem fetch_header_fields_within_virtual_size
    (message_parse_header : List Nat → List HeaderField) (lines : List HeaderLine)
    (rest : List Nat)
    (hvalid : ∀ line ∈ lines, line.valid = true)
    (hparse : message_parse_header (header_block lines ++ rest)
      = delivered_fields lines rest) :
    (∀ (fields : List (List Nat)) (match_func : List (List Nat) → List Nat → Nat → Bool),
      (fetch_header_fields message_parse_header (header_block lines ++ rest) fields
        match_func).length ≤ virtual_size_of (header_block lines))
    ∧ (∀ (size : MessageSize) (section_str : List Nat) (sect : MailFetchBodyData)
        (ctx : FetchContext) (pfx : List Nat),
        virtual_size_of (header_block lines) ≤ size.virtual_size →
        fetch_header_from message_parse_header (header_block lines ++ rest) size section_str
          sect ctx pfx ≠ none) := by
  have hbound : ∀ (fields : List (List Nat))
      (match_func : List (List Nat) → List Nat → Nat → Bool),
      (fetch_header_fields message_parse_header (header_block lines ++ rest) fields
        match_func).length ≤ virtual_size_of (header_block lines) := by
    intro fields match_func
    rw [fetch_header_fields_copied message_parse_header _ fields match_func, hparse]
    exact copied_fields_le_virtual_size fields match_func lines rest hvalid
  refine ⟨hbound, ?_⟩
  intro size section_str sect ctx pfx hsize
  have hfiltered : (fetch_header_from_filtered message_parse_header
      (header_block lines ++ rest) section_str).length ≤ size.virtual_size := by
    refine Nat.le_trans ?_ hsize
    unfold fetch_header_from_filtered
    split
    · exact hbound _ _
    · split
      · exact hbound _ _
      · split
        · exact hbound _ _
        · simp
  unfold fetch_header_from
  split
  · simp only []
    split <;> simp
  · split
    · simp
    · have h : ¬ ¬ (fetch_header_from_filtered message_parse_header
          (header_block lines ++ rest) section_str).length ≤ size.virtual_size := by
        omega
      simp only [if_neg h]
      split <;> simp

/-- C9, on the sample header (25 bytes, one bare LF, virtual size 26): the lines are
valid, the two fields copied take no more than 26 bytes, and the `MIME` fetch
passes the `i_assert`. -/
theorem fetch_header_fields_within_virtual_size_witness :
    (∀ line ∈ sample_lines, line.valid = true)
    ∧ sample_parse (header_block sample_lines ++ []) = delivered_fields sample_lines []
    ∧ (fetch_header_fields sample_parse (header_block sample_lines ++ [])
        [bytes "X"] header_match_not).length ≤ virtual_size_of (header_block sample_lines)
    ∧ fetch_header_from sample_parse (header_block sample_lines ++ []) ⟨25, 26⟩
        (bytes "MIME") ⟨bytes "MIME", 0, 100, false⟩ sample_ctx (bytes "BODY[MIME]") ≠ none :=
  ⟨by decide, rfl,
   (fetch_header_fields_within_virtual_size sample_parse sample_lines []
      (by decide) rfl).1 [bytes "X"] header_match_not,
   (fetch_header_fields_within_virtual_size sample_parse sample_lines []
      (by decide) rfl).2 ⟨25, 26⟩ (bytes "MIME") ⟨bytes "MIME", 0, 100, false⟩
      sample_ctx (bytes "BODY[MIME]") (by decide)⟩

/-- C10: in the bytes `fetch_header_fields` stores, for any fields and predicate, every
LF comes right after a CR, and the bytes are none at all or end with CR LF. -/
theorem fetch_header_fields_crlf (message_parse_header : List Nat → List HeaderField)
    (inbuf : List Nat) (fields : List (List Nat))
    (match_func : List (List Nat) → List Nat → Nat → Bool) :
    (∀ i : Nat,
        (fetch_header_fields message_parse_header inbuf fields match_func)[i]? = some 10 →
        ∃ j, i = j + 1
          ∧ (fetch_header_fields message_parse_header inbuf fields match_func)[j]? = some 13)
    ∧ (fetch_header_fields message_parse_header inbuf fields match_func = []
        ∨ ∃ front, fetch_header_fields message_parse_header inbuf fields match_func
            = front ++ [13, 10]) := by
  rw [fetch_header_fields_copied message_parse_header inbuf fields match_func]
  refine ⟨fun i hi => ?_, copied_fields_ends_crlf _ _ _⟩
  rcases lf_after_cr_of_count_zero _ false (missing_cr_count_copied _ _ _) i hi with
    ⟨_, hfalse⟩ | hj
  · cases hfalse
  · exact hj

/-- C10, on the sample header with every field copied: the LF at offset 12 follows a CR. -/
theorem fetch_header_fields_crlf_witness :
    (fetch_header_fields sample_parse (header_block sample_lines) [bytes "X"]
        header_match_not)[12]? = some 10
    ∧ ∃ j, 12 = j + 1
        ∧ (fetch_header_fields sample_parse (header_block sample_lines) [bytes "X"]
            header_match_not)[j]? = some 13 :=
  ⟨by decide,
   (fetch_header_fields_crlf sample_parse (header_block sample_lines) [bytes "X"]
      header_match_not).1 12 (by decide)⟩

/-! ## Properties: cache requirement classifier -/

/-- The content of an empty C string. -/
theorem cstr_nil : cstr [] = [] := rfl

/-- The content of a C string, byte by byte. -/
theorem cstr_cons (c : Nat) (s : List Nat) :
    cstr (c :: s) = if c = 0 then [] else c :: cstr s := by
  by_cases h : c = 0
  · simp [cstr, h]
  · simp [cstr, h]

/-- A C string is at its end exactly when its content is empty. -/
theorem cur_eq_zero_iff_cstr (s : List Nat) : cur s = 0 ↔ cstr s = [] := by
  cases s with
  | nil => simp [cur, cstr]
  | cons c s =>
    by_cases h : c = 0
    · simp [cur, cstr_cons, h]
    · simp [cur, cstr_cons, h]

/-- The content of a C string is no longer than the memory it lies in. -/
theorem length_cstr_le (s : List Nat) : (cstr s).length ≤ s.length := by
  induction s with
  | nil => simp [cstr]
  | cons c s ih =>
    rw [cstr_cons]
    split
    · simp
    · simp only [List.length_cons]
      omega

/-- Only the `0` byte folds to `0`. -/
theorem i_tolower_eq_zero (c : Nat) : i_tolower c = 0 ↔ c = 0 := by
  unfold i_tolower
  split <;> omega

/-- The libc `strncasecmp` returns zero exactly when the first `n` bytes of the two C
strings agree with case folded. -/
theorem strncasecmp_eq_zero_iff (n : Nat) (s1 s2 : List Nat) :
    strncasecmp s1 s2 n = 0 ↔ starts_nocase s1 s2 n = true := by
  unfold starts_nocase
  rw [decide_eq_true_iff]
  induction n generalizing s1 s2 with
  | zero => simp [strncasecmp]
  | succ n ih =>
    have hsub : ∀ a b : Nat, a ≠ b → ((a : Int) - (b : Int) = 0 ↔ False) := by
      intro a b hab
      constructor
      · intro h; exact hab (by omega)
      · intro h; exact h.elim
    cases s1 with
    | nil =>
      cases s2 with
      | nil => simp [strncasecmp, cur, cstr]
      | cons b s2 =>
        by_cases hb : b = 0
        · simp [strncasecmp, cur, cstr_cons, hb, cstr_nil]
        · have hlb : i_tolower 0 ≠ i_tolower b := by
            intro h
            exact hb ((i_tolower_eq_zero b).1 h.symm)
          simp only [strncasecmp, cur, List.headD_nil, List.headD_cons, if_pos hlb,
            hsub _ _ hlb, cstr_nil, cstr_cons, if_neg hb, List.take_nil, List.map_nil,
            List.take_succ_cons, List.map_cons]
          simp
    | cons a s1 =>
      cases s2 with
      | nil =>
        by_cases ha : a = 0
        · simp [strncasecmp, cur, cstr_cons, ha, cstr_nil]
        · have hla : i_tolower a ≠ i_tolower 0 := by
            intro h
            exact ha ((i_tolower_eq_zero a).1 h)
          simp only [strncasecmp, cur, List.headD_nil, List.headD_cons, if_pos hla,
            hsub _ _ hla, cstr_nil, cstr_cons, if_neg ha, List.take_nil, List.map_nil,
            List.take_succ_cons, List.map_cons]
          simp
      | cons b s2 =>
        by_cases hl : i_tolower a = i_tolower b
        · have hl1 : ¬ i_tolower a ≠ i_tolower b := fun h => h hl
          by_cases ha : a = 0
          · have hb : b = 0 := by
              rw [ha] at hl
              exact (i_tolower_eq_zero b).1 hl.symm
            simp [strncasecmp, cur, cstr_cons, ha, hb]
          · have hb : b ≠ 0 := by
              intro hb0
              rw [hb0] at hl
              exact ha ((i_tolower_eq_zero a).1 hl)
            simp only [strncasecmp, cur, List.headD_cons, if_neg hl1, if_neg ha,
              List.tail_cons, cstr_cons, if_neg hb, List.take_succ_cons, List.map_cons, ih]
            simp [hl]
        · have hl1 : i_tolower a ≠ i_tolower b := hl
          simp only [strncasecmp, cur, List.headD_cons, if_pos hl1, hsub _ _ hl1, cstr_cons,
            false_iff]
          intro h
          by_cases ha : a = 0
          · by_cases hb : b = 0
            · exact hl (by rw [ha, hb])
            · simp [ha, hb] at h
          · by_cases hb : b = 0
            · simp [ha, hb] at h
            · simp [ha, hb] at h
              exact hl h.1

/-- The libc `strcasecmp` returns zero exactly when the two C strings agree with case folded. -/
theorem strcasecmp_eq_zero_iff (s1 s2 : List Nat) :
    strcasecmp s1 s2 = 0 ↔ eq_nocase s1 s2 = true := by
  unfold strcasecmp
  rw [strncasecmp_eq_zero_iff]
  unfold starts_nocase eq_nocase
  rw [decide_eq_true_iff, decide_eq_true_iff]
  have h1 := length_cstr_le s1
  have htake : (cstr s1).take (s1.length + 1) = cstr s1 :=
    List.take_of_length_le (by omega)
  rw [htake]
  constructor
  · intro h
    have hlen := congrArg List.length h
    simp only [List.length_map, List.length_take] at hlen
    have : (cstr s2).take (s1.length + 1) = cstr s2 :=
      List.take_of_length_le (by omega)
    rw [this] at h
    exact h
  · intro h
    have hlen := congrArg List.length h
    simp only [List.length_map] at hlen
    have : (cstr s2).take (s1.length + 1) = cstr s2 :=
      List.take_of_length_le (by omega)
    rw [this]
    exact h

/-- C11: `index_fetch_body_get_cache` returns part lookup and open for a section whose
first byte is a digit; otherwise open alone for an empty section or `TEXT` in
any letter case; otherwise header size and open for a section that starts with
`HEADER` or is `MIME`, in any letter case; otherwise the empty set. -/
theorem index_fetch_body_get_cache_eq (section_str : List Nat) :
    index_fetch_body_get_cache section_str =
      if is_digit (cur section_str) = true then
        [ImapCacheField.IMAP_CACHE_MESSAGE_PART, ImapCacheField.IMAP_CACHE_MESSAGE_OPEN]
      else if cstr section_str = [] ∨ eq_nocase section_str (bytes "TEXT") = true then
        [ImapCacheField.IMAP_CACHE_MESSAGE_OPEN]
      else if starts_nocase section_str (bytes "HEADER") 6 = true
          ∨ eq_nocase section_str (bytes "MIME") = true then
        [ImapCacheField.IMAP_CACHE_MESSAGE_HDR_SIZE, ImapCacheField.IMAP_CACHE_MESSAGE_OPEN]
      else [] := by
  unfold index_fetch_body_get_cache
  simp only [← is_digit_iff, cur_eq_zero_iff_cstr, strcasecmp_eq_zero_iff,
    strncasecmp_eq_zero_iff]

/-! ## Properties: section dispatcher -/

/-- C16: for every field list and every name of `size > 0` bytes, `header_match_not`
is true exactly when `header_match` is false. -/
theorem header_match_not_iff (fields : List (List Nat)) (name : List Nat) (size : Nat)
    (hsize : 0 < size) :
    header_match_not fields name size = true ↔ header_match fields name size = false := by
  have _hassert : size ≠ 0 := by omega
  unfold header_match_not
  cases header_match fields name size <;> simp

/-- C16, at the list `SUBJECT` and the names of `From: a@b` and `Subject: Hi`. -/
theorem header_match_not_iff_witness :
    (0 < 4 ∧ header_match_not [bytes "SUBJECT"] (bytes "From: a@b\r\n") 4 = true
      ∧ header_match [bytes "SUBJECT"] (bytes "From: a@b\r\n") 4 = false)
    ∧ (header_match_not [bytes "SUBJECT"] (bytes "Subject: Hi\r\n") 7 = true
      ↔ header_match [bytes "SUBJECT"] (bytes "Subject: Hi\r\n") 7 = false) :=
  ⟨⟨by decide, by decide, by decide⟩,
   header_match_not_iff [bytes "SUBJECT"] (bytes "Subject: Hi\r\n") 7 (by decide)⟩

/-- The text built by `index_fetch_body_section` is the text of the specification. -/
theorem index_fetch_body_text_eq (sect : MailFetchBodyData) (first : Bool) :
    (if first then (index_fetch_body_text sect).tail else index_fetch_body_text sect)
      = fragment_text sect.section_str sect.skip sect.skip_set first := by
  have hb : bytes " BODY[" = 32 :: bytes "BODY[" := by decide
  have hs : bytes " " = [32] := by decide
  have hc : bytes "]<" = bytes "]" ++ bytes "<" := by decide
  unfold index_fetch_body_text fragment_text
  cases first <;> cases sect.skip_set <;> simp [hb, hs, hc]

/-- The filtered and unfiltered header fetch leave the first-fragment flag alone. -/
theorem fetch_header_from_first (message_parse_header : List Nat → List HeaderField)
    (inbuf : List Nat) (size : MessageSize) (section_str : List Nat)
    (sect : MailFetchBodyData) (ctx : FetchContext) (pfx : List Nat)
    (r : Bool × FetchContext)
    (h : fetch_header_from message_parse_header inbuf size section_str sect ctx pfx = some r) :
    r.2.first = ctx.first := by
  unfold fetch_header_from at h
  simp only [] at h
  split at h
  · split at h
    · injection h with h; rw [← h]
    · injection h with h; rw [← h]
  · split at h
    · injection h with h; rw [← h]
    · split at h
      · cases h
      · split at h
        · injection h with h; rw [← h]
        · injection h with h; rw [← h]

/-- The body fetch of a part leaves the first-fragment flag alone. -/
theorem fetch_part_body_first (part : MessagePart) (sect : MailFetchBodyData)
    (ctx : FetchContext) (pfx : List Nat) :
    (fetch_part_body part sect ctx pfx).2.first = ctx.first := by
  unfold fetch_part_body
  split
  · rfl
  · simp only []
    split <;> rfl

/-- The whole-message body fetch leaves the first-fragment flag alone. -/
theorem fetch_body_first (coll : Collaborators) (sect : MailFetchBodyData)
    (ctx : FetchContext) (pfx : List Nat) (fetch_hdr : Bool) :
    (fetch_body coll sect ctx pfx fetch_hdr).2.first = ctx.first := by
  unfold fetch_body
  split
  · rfl
  · simp only []
    split <;> rfl

/-- The part fetch leaves the first-fragment flag alone. -/
theorem fetch_part_first (coll : Collaborators) (sect : MailFetchBodyData)
    (ctx : FetchContext) (pfx : List Nat) (r : Bool × FetchContext)
    (h : fetch_part coll sect ctx pfx = some r) : r.2.first = ctx.first := by
  unfold fetch_part at h
  split at h
  · cases h
  · injection h with h; rw [← h]
  · split at h
    · injection h with h
      rw [← h]
      exact fetch_part_body_first _ _ _ _
    · have hp : ∀ (part : MessagePart) (s : List Nat),
          fetch_part_header coll part s sect ctx pfx = some r → r.2.first = ctx.first := by
        intro part s hs
        unfold fetch_part_header at hs
        split at hs
        · injection hs with hs; rw [← hs]
        · exact fetch_header_from_first _ _ _ _ _ _ _ _ hs
      split at h
      · exact hp _ _ h
      · split at h
        · exact hp _ _ h
        · injection h with h; rw [← h]

/-- Every branch of the dispatcher leaves the first-fragment flag alone. -/
theorem index_fetch_body_dispatch_first (coll : Collaborators) (sect : MailFetchBodyData)
    (ctx : FetchContext) (pfx : List Nat) (r : Bool × FetchContext)
    (h : index_fetch_body_dispatch coll sect ctx pfx = some r) : r.2.first = ctx.first := by
  unfold index_fetch_body_dispatch at h
  split at h
  · injection h with h
    rw [← h]
    exact fetch_body_first _ _ _ _ _
  · injection h with h
    rw [← h]
    exact fetch_body_first _ _ _ _ _
  · unfold fetch_header at h
    split at h
    · injection h with h; rw [← h]
    · exact fetch_header_from_first _ _ _ _ _ _ _ _ h
  · exact fetch_part_first _ _ _ _ _ h
  · injection h with h; rw [← h]

/-- C12: `index_fetch_body_section` runs its branches with the first-fragment flag
cleared and with the text: a blank unless `first` was set, `BODY[<section>]`, and
`<skip>` when `skip_set`; the branches do not read `skip_set`; whenever the call
returns, the flag of the context is false; and section `TEXT` with skip 2 set,
as the first fragment, gives `BODY[TEXT]<2>`. -/
theorem index_fetch_body_section_text :
    (∀ (coll : Collaborators) (sect : MailFetchBodyData) (ctx : FetchContext),
      index_fetch_body_section coll sect ctx
        = index_fetch_body_dispatch coll sect { ctx with first := false }
            (fragment_text sect.section_str sect.skip sect.skip_set ctx.first))
    ∧ (∀ (coll : Collaborators) (sect : MailFetchBodyData) (ctx : FetchContext)
        (pfx : List Nat) (b : Bool),
        index_fetch_body_dispatch coll { sect with skip_set := b } ctx pfx
          = index_fetch_body_dispatch coll sect ctx pfx)
    ∧ (∀ (coll : Collaborators) (sect : MailFetchBodyData) (ctx : FetchContext)
        (r : Bool × FetchContext),
        index_fetch_body_section coll sect ctx = some r → r.2.first = false)
    ∧ fragment_text (bytes "TEXT") 2 true true = bytes "BODY[TEXT]<2>" := by
  have h1 : ∀ (coll : Collaborators) (sect : MailFetchBodyData) (ctx : FetchContext),
      index_fetch_body_section coll sect ctx
        = index_fetch_body_dispatch coll sect { ctx with first := false }
            (fragment_text sect.section_str sect.skip sect.skip_set ctx.first) := by
    intro coll sect ctx
    rw [← index_fetch_body_text_eq]
    unfold index_fetch_body_section
    obtain ⟨cache, outbuf, first⟩ := ctx
    cases first <;> simp
  refine ⟨h1, ?_, ?_, by decide⟩
  · intro coll sect ctx pfx b
    rfl
  · intro coll sect ctx r h
    rw [h1] at h
    exact index_fetch_body_dispatch_first _ _ _ _ _ h

/-- C12, at section `FOO` fetched as the first fragment: the call returns and the flag
of the returned context is false. -/
theorem index_fetch_body_section_text_witness :
    index_fetch_body_section sample_coll ⟨bytes "FOO", 2, 3, true⟩ sample_ctx
      = some (false, { sample_ctx with first := false })
    ∧ (false, { sample_ctx with first := false }).2.first = false :=
  ⟨rfl,
   index_fetch_body_section_text.2.2.1 sample_coll ⟨bytes "FOO", 2, 3, true⟩ sample_ctx
     (false, { sample_ctx with first := false }) rfl⟩

/-- The result of `fetch_header_from` on its filtered paths, in terms of the filtered
buffer and of what the two writes return. -/
theorem fetch_header_from_filtered_result
    (message_parse_header : List Nat → List HeaderField) (inbuf : List Nat)
    (size : MessageSize) (section_str : List Nat) (sect : MailFetchBodyData)
    (ctx : FetchContext) (pfx : List Nat)
    (hsection : strcasecmp section_str (bytes "HEADER") ≠ 0)
    (hmax : size.virtual_size ≤ SSIZE_T_MAX)
    (hfit : (fetch_header_from_filtered message_parse_header inbuf section_str).length
      ≤ size.virtual_size) :
    fetch_header_from message_parse_header inbuf size section_str sect ctx pfx =
      if ctx.outbuf.results ctx.outbuf.sent.length < 0 then
        some (false, { ctx with outbuf :=
          ⟨ctx.outbuf.sent ++ [literal_header pfx (window_length
            (fetch_header_from_filtered message_parse_header inbuf section_str).length
            sect.skip sect.max_size)], ctx.outbuf.results⟩ })
      else
        some (decide (ctx.outbuf.results (ctx.outbuf.sent.length + 1) = 0),
          { ctx with outbuf :=
            ⟨ctx.outbuf.sent ++ [literal_header pfx (window_length
              (fetch_header_from_filtered message_parse_header inbuf section_str).length
              sect.skip sect.max_size),
              window_bytes (fetch_header_from_filtered message_parse_header inbuf section_str)
                sect.skip sect.max_size], ctx.outbuf.results⟩ }) := by
  generalize hL : fetch_header_from_filtered message_parse_header inbuf section_str = L
    at hfit
  have hmax1 : ¬ size.virtual_size > SSIZE_T_MAX := by omega
  have hfit1 : ¬ ¬ L.length ≤ size.virtual_size := by omega
  unfold fetch_header_from
  simp only [hL, if_neg hsection, if_neg hmax1, if_neg hfit1, fetch_header_from_window_eq,
    fetch_header_from_window_bytes, io_buffer_send]
  by_cases hr : ctx.outbuf.results ctx.outbuf.sent.length < 0
  · simp [hr]
  · simp [hr]

/-- A section that starts with `HEADER` is not `MIME`. -/
theorem not_mime_of_starts_header (s : List Nat)
    (h : starts_nocase s (bytes "HEADER") 6 = true) : eq_nocase s (bytes "MIME") = false := by
  unfold starts_nocase at h
  unfold eq_nocase
  rw [decide_eq_true_iff] at h
  rw [decide_eq_false_iff_not]
  have h1 : ((cstr (bytes "HEADER")).take 6).map i_tolower = [104, 101, 97, 100, 101, 114] := by
    decide
  have h2 : (cstr (bytes "MIME")).map i_tolower = [109, 105, 109, 101] := by decide
  rw [h1] at h
  rw [h2]
  generalize cstr s = l at h
  cases l with
  | nil => simp at h
  | cons c l =>
    intro hm
    simp only [List.take_succ_cons, List.map_cons, List.cons.injEq] at h hm
    omega

/-- C19: for a section that starts with `HEADER` in any letter case but is not
`HEADER` and starts neither with `HEADER.FIELDS ` nor with `HEADER.FIELDS.NOT `,
`fetch_header_from` (on a header within `SSIZE_T_MAX`) selects no field: for
every header stream and window it returns, the literal header it hands to the
sink announces 0, the data it hands over is empty, and it reports success when
the header write returns no fault and the data write returns 0. -/
theorem fetch_header_from_unknown_header
    (message_parse_header : List Nat → List HeaderField) (inbuf : List Nat)
    (size : MessageSize) (section_str : List Nat) (sect : MailFetchBodyData)
    (ctx : FetchContext) (pfx : List Nat)
    (hstart : starts_nocase section_str (bytes "HEADER") 6 = true)
    (hheader : eq_nocase section_str (bytes "HEADER") = false)
    (hfields : starts_nocase section_str (bytes "HEADER.FIELDS ") 14 = false)
    (hnot : starts_nocase section_str (bytes "HEADER.FIELDS.NOT ") 18 = false)
    (hmax : size.virtual_size ≤ SSIZE_T_MAX) :
    fetch_header_from_filtered message_parse_header inbuf section_str = []
    ∧ (fetch_header_from message_parse_header inbuf size section_str sect ctx pfx).map
        (fun r => r.2.outbuf.sent)
      = some (ctx.outbuf.sent ++
          (if ctx.outbuf.results ctx.outbuf.sent.length < 0 then [literal_header pfx 0]
           else [literal_header pfx 0, []]))
    ∧ (0 ≤ ctx.outbuf.results ctx.outbuf.sent.length →
        ctx.outbuf.results (ctx.outbuf.sent.length + 1) = 0 →
        (fetch_header_from message_parse_header inbuf size section_str sect ctx pfx).map
          (fun r => r.1) = some true) := by
  have h1 : ¬ strcasecmp section_str (bytes "HEADER") = 0 := by
    rw [strcasecmp_eq_zero_iff, hheader]; simp
  have h2 : ¬ strncasecmp section_str (bytes "HEADER.FIELDS ") 14 = 0 := by
    rw [strncasecmp_eq_zero_iff, hfields]; simp
  have h3 : ¬ strncasecmp section_str (bytes "HEADER.FIELDS.NOT ") 18 = 0 := by
    rw [strncasecmp_eq_zero_iff, hnot]; simp
  have h4 : ¬ strcasecmp section_str (bytes "MIME") = 0 := by
    rw [strcasecmp_eq_zero_iff, not_mime_of_starts_header section_str hstart]; simp
  have hL : fetch_header_from_filtered message_parse_header inbuf section_str = [] := by
    unfold fetch_header_from_filtered
    rw [if_neg h2, if_neg h3, if_neg h4]
  have hres := fetch_header_from_filtered_result message_parse_header inbuf size section_str
    sect ctx pfx h1 hmax (by rw [hL]; simp)
  have hw : window_length ([] : List Nat).length sect.skip sect.max_size = 0 := by
    simp [window_length]
  have hb : window_bytes ([] : List Nat) sect.skip sect.max_size = [] := by
    simp [window_bytes]
  rw [hL, hw, hb] at hres
  refine ⟨hL, ?_, ?_⟩
  · rw [hres]
    by_cases hr : ctx.outbuf.results ctx.outbuf.sent.length < 0
    · simp [hr]
    · simp [hr]
  · intro hr0 hr1
    rw [hres]
    have hr : ¬ ctx.outbuf.results ctx.outbuf.sent.length < 0 := by omega
    simp [hr, hr1]

/-- C19, at section `HEADERX` on the sample header: the hypotheses hold and the sink
receives `{0}` and no data. -/
theorem fetch_header_from_unknown_header_witness :
    (starts_nocase (bytes "HEADERX") (bytes "HEADER") 6 = true
      ∧ eq_nocase (bytes "HEADERX") (bytes "HEADER") = false
      ∧ starts_nocase (bytes "HEADERX") (bytes "HEADER.FIELDS ") 14 = false
      ∧ starts_nocase (bytes "HEADERX") (bytes "HEADER.FIELDS.NOT ") 18 = false
      ∧ (26 : Nat) ≤ SSIZE_T_MAX)
    ∧ (fetch_header_from sample_parse (header_block sample_lines) ⟨25, 26⟩
        (bytes "HEADERX") ⟨bytes "HEADERX", 0, UOFF_T_MAX, false⟩ sample_ctx
        (bytes "BODY[HEADERX]")).map (fun r => r.2.outbuf.sent)
      = some [bytes "BODY[HEADERX] \x7b0\x7d\r\n", []] :=
  ⟨⟨by decide, by decide, by decide, by decide, by decide⟩,
   ((fetch_header_from_unknown_header sample_parse (header_block sample_lines) ⟨25, 26⟩
      (bytes "HEADERX") ⟨bytes "HEADERX", 0, UOFF_T_MAX, false⟩ sample_ctx
      (bytes "BODY[HEADERX]") (by decide) (by decide) (by decide) (by decide)
      (by decide)).2.1).trans (by decide)⟩

/-- C17 (evaluation at the failing input): a filtered header fetch whose two writes both
return 1 hands the literal header and the data to the sink and reports failure;
with both writes returning 0 it reports success; and the unfiltered `HEADER`
path, with both writes returning 1, reports success. -/
theorem fetch_header_from_fails_on_positive_write :
    (fetch_header_from sample_parse (header_block sample_lines) ⟨25, 26⟩
        (bytes "HEADER.FIELDS (SUBJECT)")
        ⟨bytes "HEADER.FIELDS (SUBJECT)", 0, UOFF_T_MAX, false⟩
        ⟨⟨none, none⟩, ⟨[], fun _ => 1⟩, true⟩
        (bytes "BODY[HEADER.FIELDS (SUBJECT)]")).map (fun r => (r.1, r.2.outbuf.sent))
      = some (false,
          [bytes "BODY[HEADER.FIELDS (SUBJECT)] \x7b13\x7d\r\n", bytes "Subject: Hi\r\n"])
    ∧ (fetch_header_from sample_parse (header_block sample_lines) ⟨25, 26⟩
        (bytes "HEADER.FIELDS (SUBJECT)")
        ⟨bytes "HEADER.FIELDS (SUBJECT)", 0, UOFF_T_MAX, false⟩
        ⟨⟨none, none⟩, ⟨[], fun _ => 0⟩, true⟩
        (bytes "BODY[HEADER.FIELDS (SUBJECT)]")).map (fun r => r.1) = some true
    ∧ (fetch_header_from sample_parse (header_block sample_lines) ⟨25, 26⟩
        (bytes "HEADER") ⟨bytes "HEADER", 0, UOFF_T_MAX, false⟩
        ⟨⟨none, none⟩, ⟨[], fun _ => 1⟩, true⟩
        (bytes "BODY[HEADER]")).map (fun r => r.1) = some true := by
  refine ⟨?_, ?_, ?_⟩ <;> decide

/-- C18 (evaluation at the failing input): on a multipart root with one child the
segment `4294967297`, whose value is above the number of children, resolves to
the first child, the `unsigned int` accumulator having wrapped to 1; the
segment `2` is not-found. -/
theorem part_find_wrapped_segment_selects_child :
    part_find ⟨bytes "4294967297", 0, 0, false⟩
        ⟨⟨some sample_root, none⟩, ⟨[], fun _ => 0⟩, true⟩
      = PartFound.found sample_leaf []
    ∧ part_find ⟨bytes "2", 0, 0, false⟩ ⟨⟨some sample_root, none⟩, ⟨[], fun _ => 0⟩, true⟩
      = PartFound.null :=
  ⟨rfl, rfl⟩

/-- C13: a section that is not empty, is not `TEXT`, does not start with `HEADER` (in
any letter case) and does not start with a digit makes `index_fetch_body_section`
return failure with the output buffer as it was; and `fetch_part` returns
failure with the context as it was when the path is not found, or when the
suffix left by `part_find` is not empty, is not `TEXT`, does not start with
`HEADER` and is not `MIME`. -/
theorem unrecognized_section_fails :
    (∀ (coll : Collaborators) (sect : MailFetchBodyData) (ctx : FetchContext),
        cstr sect.section_str ≠ [] →
        eq_nocase sect.section_str (bytes "TEXT") = false →
        starts_nocase sect.section_str (bytes "HEADER") 6 = false →
        is_digit (cur sect.section_str) = false →
        index_fetch_body_section coll sect ctx = some (false, { ctx with first := false }))
    ∧ (∀ (coll : Collaborators) (sect : MailFetchBodyData) (ctx : FetchContext)
        (pfx : List Nat),
        (part_find sect ctx = PartFound.null
          ∨ ∃ (part : MessagePart) (rest : List Nat),
              part_find sect ctx = PartFound.found part rest
              ∧ cstr rest ≠ []
              ∧ eq_nocase rest (bytes "TEXT") = false
              ∧ starts_nocase rest (bytes "HEADER") 6 = false
              ∧ eq_nocase rest (bytes "MIME") = false) →
        fetch_part coll sect ctx pfx = some (false, ctx)) := by
  constructor
  · intro coll sect ctx hne htext hheader hdigit
    have h1 : ¬ cur sect.section_str = 0 := by
      rw [cur_eq_zero_iff_cstr]; exact hne
    have h2 : ¬ strcasecmp sect.section_str (bytes "TEXT") = 0 := by
      rw [strcasecmp_eq_zero_iff, htext]; simp
    have h3 : ¬ strncasecmp sect.section_str (bytes "HEADER") 6 = 0 := by
      rw [strncasecmp_eq_zero_iff, hheader]; simp
    have h4 : ¬ (48 ≤ cur sect.section_str ∧ cur sect.section_str ≤ 57) := by
      rw [← is_digit_iff, hdigit]; simp
    have hroute : index_fetch_body_route sect.section_str = SectionRoute.unrecognized := by
      unfold index_fetch_body_route
      rw [if_neg h1, if_neg h2, if_neg h3, if_neg h4]
    unfold index_fetch_body_section index_fetch_body_dispatch
    rw [hroute]
    obtain ⟨cache, outbuf, first⟩ := ctx
    cases first <;> rfl
  · intro coll sect ctx pfx h
    unfold fetch_part
    rcases h with h | ⟨part, rest, h, hne, htext, hheader, hmime⟩
    · rw [h]
    · have h1 : ¬ (cur rest = 0 ∨ strcasecmp rest (bytes "TEXT") = 0) := by
        rw [cur_eq_zero_iff_cstr, strcasecmp_eq_zero_iff, htext]
        simp [hne]
      have h2 : ¬ strncasecmp rest (bytes "HEADER") 6 = 0 := by
        rw [strncasecmp_eq_zero_iff, hheader]; simp
      have h3 : ¬ strcasecmp rest (bytes "MIME") = 0 := by
        rw [strcasecmp_eq_zero_iff, hmime]; simp
      rw [h]
      simp only [if_neg h1, if_neg h2, if_neg h3]

/-- C13, at section `FOO`, and at the sections `9` (no such part) and `1.FOO` (suffix
`FOO`) on the sample root. -/
theorem unrecognized_section_fails_witness :
    index_fetch_body_section sample_coll ⟨bytes "FOO", 0, UOFF_T_MAX, false⟩ sample_ctx
      = some (false, { sample_ctx with first := false })
    ∧ fetch_part sample_coll ⟨bytes "9", 0, UOFF_T_MAX, false⟩
        ⟨⟨some sample_root, none⟩, ⟨[], fun _ => 0⟩, false⟩ (bytes " BODY[9]")
      = some (false, ⟨⟨some sample_root, none⟩, ⟨[], fun _ => 0⟩, false⟩)
    ∧ fetch_part sample_coll ⟨bytes "1.FOO", 0, UOFF_T_MAX, false⟩
        ⟨⟨some sample_root, none⟩, ⟨[], fun _ => 0⟩, false⟩ (bytes " BODY[1.FOO]")
      = some (false, ⟨⟨some sample_root, none⟩, ⟨[], fun _ => 0⟩, false⟩) :=
  ⟨unrecognized_section_fails.1 sample_coll ⟨bytes "FOO", 0, UOFF_T_MAX, false⟩ sample_ctx
      (by decide) (by decide) (by decide) (by decide),
   unrecognized_section_fails.2 sample_coll ⟨bytes "9", 0, UOFF_T_MAX, false⟩
      ⟨⟨some sample_root, none⟩, ⟨[], fun _ => 0⟩, false⟩ (bytes " BODY[9]") (Or.inl rfl),
   unrecognized_section_fails.2 sample_coll ⟨bytes "1.FOO", 0, UOFF_T_MAX, false⟩
      ⟨⟨some sample_root, none⟩, ⟨[], fun _ => 0⟩, false⟩ (bytes " BODY[1.FOO]")
      (Or.inr ⟨sample_leaf, bytes "FOO", rfl, by decide, by decide, by decide, by decide⟩)⟩

/-- C14 (counterexample): in scenario B the bytes appended to the sink announce 13, not
14: they are not `BODY[HEADER.FIELDS (SUBJECT)] {14}\r\nSubject: Hi\r\n`. -/
theorem scenario_b_is_not_14 :
    (index_fetch_body_section scenario_coll
        ⟨bytes "HEADER.FIELDS (SUBJECT)", 0, UOFF_T_MAX, false⟩
        ⟨⟨none, none⟩, ⟨[], fun _ => 0⟩, true⟩).map (fun r => (r.1, r.2.outbuf.sent.flatten))
      = some (true, bytes "BODY[HEADER.FIELDS (SUBJECT)] \x7b13\x7d\r\nSubject: Hi\r\n")
    ∧ (index_fetch_body_section scenario_coll
        ⟨bytes "HEADER.FIELDS (SUBJECT)", 0, UOFF_T_MAX, false⟩
        ⟨⟨none, none⟩, ⟨[], fun _ => 0⟩, true⟩).map (fun r => r.2.outbuf.sent.flatten)
      ≠ some (bytes "BODY[HEADER.FIELDS (SUBJECT)] \x7b14\x7d\r\nSubject: Hi\r\n") := by
  constructor <;> decide

/-- C14 (amended): in scenario B, with any `max_size` of 13 or more and a sink whose
header write reports no fault, what is handed to the sink is the literal header
`BODY[HEADER.FIELDS (SUBJECT)] {13}` and the 13 bytes `Subject: Hi` CR LF, the
`From` field being left out. -/
theorem scenario_b_emits_13 (cache : ImapMessageCache) (results : Nat → Int)
    (max_size : Nat) (hmax : 13 ≤ max_size) (hsend : 0 ≤ results 0) :
    (index_fetch_body_section scenario_coll
        ⟨bytes "HEADER.FIELDS (SUBJECT)", 0, max_size, false⟩
        ⟨cache, ⟨[], results⟩, true⟩).map (fun r => r.2.outbuf.sent)
      = some [bytes "BODY[HEADER.FIELDS (SUBJECT)] \x7b13\x7d\r\n",
          bytes "Subject: Hi\r\n"] := by
  have hroute : index_fetch_body_route (bytes "HEADER.FIELDS (SUBJECT)")
      = SectionRoute.header := by decide
  have hL : fetch_header_from_filtered scenario_coll.message_parse_header
      (header_block scenario_lines) (bytes "HEADER.FIELDS (SUBJECT)")
      = bytes "Subject: Hi\r\n" := by decide
  have hlen : (bytes "Subject: Hi\r\n").length = 13 := by decide
  have hres := fetch_header_from_filtered_result scenario_coll.message_parse_header
    (header_block scenario_lines) ⟨24, 24⟩ (bytes "HEADER.FIELDS (SUBJECT)")
    ⟨bytes "HEADER.FIELDS (SUBJECT)", 0, max_size, false⟩
    ⟨cache, ⟨[], results⟩, false⟩
    (fragment_text (bytes "HEADER.FIELDS (SUBJECT)") 0 false true)
    (by decide) (by decide) (by rw [hL]; decide)
  have hw : window_length 13 0 max_size = 13 := by
    unfold window_length
    simp
    omega
  have hb : window_bytes (bytes "Subject: Hi\r\n") 0 max_size = bytes "Subject: Hi\r\n" := by
    unfold window_bytes
    rw [hlen, hw]
    decide
  have hhdr : literal_header (fragment_text (bytes "HEADER.FIELDS (SUBJECT)") 0 false true) 13
      = bytes "BODY[HEADER.FIELDS (SUBJECT)] \x7b13\x7d\r\n" := by decide
  have hnofault : ¬ results 0 < 0 := by omega
  rw [hL, hlen, hw, hb, hhdr] at hres
  simp only [List.length_nil, if_neg hnofault, List.nil_append] at hres
  have hsec : index_fetch_body_section scenario_coll
      ⟨bytes "HEADER.FIELDS (SUBJECT)", 0, max_size, false⟩ ⟨cache, ⟨[], results⟩, true⟩
      = fetch_header_from scenario_coll.message_parse_header (header_block scenario_lines)
          ⟨24, 24⟩ (bytes "HEADER.FIELDS (SUBJECT)")
          ⟨bytes "HEADER.FIELDS (SUBJECT)", 0, max_size, false⟩
          ⟨cache, ⟨[], results⟩, false⟩
          (fragment_text (bytes "HEADER.FIELDS (SUBJECT)") 0 false true) := by
    unfold index_fetch_body_section index_fetch_body_dispatch
    simp only [hroute]
    rfl
  rw [hsec, hres]
  rfl

/-- C14 (amended), with an unbounded `max_size` and a sink whose writes return 0. -/
theorem scenario_b_emits_13_witness :
    ((13 : Nat) ≤ UOFF_T_MAX ∧ (0 : Int) ≤ (fun _ => 0 : Nat → Int) 0)
    ∧ (index_fetch_body_section scenario_coll
        ⟨bytes "HEADER.FIELDS (SUBJECT)", 0, UOFF_T_MAX, false⟩
        ⟨⟨none, none⟩, ⟨[], fun _ => 0⟩, true⟩).map (fun r => r.2.outbuf.sent)
      = some [bytes "BODY[HEADER.FIELDS (SUBJECT)] \x7b13\x7d\r\n",
          bytes "Subject: Hi\r\n"] :=
  ⟨⟨by decide, by decide⟩,
   scenario_b_emits_13 ⟨none, none⟩ (fun _ => 0) UOFF_T_MAX (by decide) (by decide)⟩

/-- C15 (counterexample): on a multipart root with exactly two children, both leaves,
the second with the body `world`, section `1.2` is not-found (the first child
is not multipart, so only `1` may follow), the fetch fails and nothing is
handed to the sink. -/
theorem scenario_c_1_2_not_found :
    scenario_c_root.multipart = true
    ∧ scenario_c_root.children = [scenario_c_first, scenario_c_second]
    ∧ (scenario_c_message.drop
        ((scenario_c_second.physical_pos + scenario_c_second.header_size.physical_size)
          % UOFF_T_MOD)).take
        scenario_c_second.body_size.virtual_size = bytes "world"
    ∧ part_find ⟨bytes "1.2", 0, UOFF_T_MAX, false⟩
        ⟨⟨some scenario_c_root, some scenario_c_message⟩, ⟨[], fun _ => 0⟩, true⟩
      = PartFound.null
    ∧ (index_fetch_body_section sample_coll ⟨bytes "1.2", 0, UOFF_T_MAX, false⟩
        ⟨⟨some scenario_c_root, some scenario_c_message⟩, ⟨[], fun _ => 0⟩, true⟩).map
        (fun r => (r.1, r.2.outbuf.sent))
      = some (false, []) :=
  ⟨rfl, rfl, by decide, rfl, by decide⟩

/-- The normalisation leaves the word `world` at the head of a stream as it is. -/
theorem insert_missing_cr_world (rest : List Nat) :
    (insert_missing_cr false (bytes "world" ++ rest)).take 5 = bytes "world" := by
  have h : bytes "world" = [119, 111, 114, 108, 100] := by decide
  rw [h]
  simp [insert_missing_cr]

/-- The part fetch of a section that resolves, with no suffix, to a part whose body is
the 5 bytes `world`: with skip 0, `max_size` of 5 or more and no write fault it
succeeds, having handed the literal header announcing 5 and `world` to the sink. -/
theorem fetch_part_emits_world (coll : Collaborators) (sect : MailFetchBodyData)
    (ctx : FetchContext) (pfx : List Nat) (part : MessagePart) (data rest : List Nat)
    (hfind : part_find sect ctx = PartFound.found part [])
    (hdata : ctx.cache.data = some data)
    (hsize : part.body_size.virtual_size = 5)
    (hbody : data.drop ((part.physical_pos + part.header_size.physical_size) % UOFF_T_MOD)
      = bytes "world" ++ rest)
    (hskip : sect.skip = 0) (hmax : 5 ≤ sect.max_size)
    (hsend0 : 0 ≤ ctx.outbuf.results ctx.outbuf.sent.length)
    (hsend1 : 0 ≤ ctx.outbuf.results (ctx.outbuf.sent.length + 1)) :
    fetch_part coll sect ctx pfx
      = some (true, { ctx with outbuf :=
          ⟨ctx.outbuf.sent ++ [literal_header pfx 5, bytes "world"], ctx.outbuf.results⟩ }) := by
  have hn0 : ¬ ctx.outbuf.results ctx.outbuf.sent.length < 0 := by omega
  have hslice : (List.take 5 (insert_missing_cr false (bytes "world" ++ rest))).take
      sect.max_size = bytes "world" := by
    rw [insert_missing_cr_world]
    exact List.take_of_length_le (by simpa using hmax)
  unfold fetch_part
  simp only [hfind, cur, List.headD_nil, true_or, if_true, fetch_part_body, hdata,
    io_buffer_skip, hbody, io_buffer_send, if_neg hn0, message_send, hsize, hskip,
    List.drop_zero, hslice, List.length_append, List.length_singleton]
  simp [hsend1]

/-- Section `1.2` on a multipart root: `part_find` returns the second child of the
root's first child when that first child is multipart and has one, and
not-found otherwise. -/
theorem part_find_1_2 (root c1 : MessagePart) (others : List MessagePart)
    (cache_data : Option (List Nat)) (outbuf : IOBuffer) (first : Bool)
    (skip max_size : Nat) (skip_set : Bool)
    (hmulti : root.multipart = true) (hchildren : root.children = c1 :: others) :
    part_find ⟨bytes "1.2", skip, max_size, skip_set⟩ ⟨⟨some root, cache_data⟩, outbuf, first⟩
      = match (if c1.multipart then c1.children[1]? else none) with
        | some d => PartFound.found d []
        | none => PartFound.null := by
  have hb : bytes "1.2" = [49, 46, 50] := by decide
  cases hm : c1.multipart
  · simp [part_find, part_find_loop, part_find_num, part_find_child, hb, cur, hmulti,
      hchildren, hm, UINT_MOD]
  · cases hc : c1.children with
    | nil =>
      simp [part_find, part_find_loop, part_find_num, part_find_child, hb, cur, hmulti,
        hchildren, hm, hc, UINT_MOD]
    | cons d1 tl =>
      cases tl with
      | nil =>
        simp [part_find, part_find_loop, part_find_num, part_find_child, hb, cur, hmulti,
          hchildren, hm, hc, UINT_MOD]
      | cons d2 more =>
        simp [part_find, part_find_loop, part_find_num, part_find_child, hb, cur, hmulti,
          hchildren, hm, hc, UINT_MOD]

/-- Section `1.2` on a multipart root whose first child is multipart with at least two
children resolves to the second child of that first child; when that part has
the body `world`, the fetch emits `BODY[1.2] {5}` and `world`. -/
theorem part_find_1_2_of_multipart_first (coll : Collaborators) (root c1 d1 d2 : MessagePart)
    (others more : List MessagePart) (data rest : List Nat) (results : Nat → Int)
    (max_size : Nat)
    (hmulti : root.multipart = true) (hchildren : root.children = c1 :: others)
    (hmulti1 : c1.multipart = true) (hchildren1 : c1.children = d1 :: d2 :: more)
    (hsize : d2.body_size.virtual_size = 5)
    (hbody : data.drop ((d2.physical_pos + d2.header_size.physical_size) % UOFF_T_MOD)
      = bytes "world" ++ rest)
    (hmax : 5 ≤ max_size) (hsend0 : 0 ≤ results 0) (hsend1 : 0 ≤ results 1) :
    part_find ⟨bytes "1.2", 0, max_size, false⟩
        ⟨⟨some root, some data⟩, ⟨[], results⟩, true⟩ = PartFound.found d2 []
    ∧ index_fetch_body_section coll ⟨bytes "1.2", 0, max_size, false⟩
        ⟨⟨some root, some data⟩, ⟨[], results⟩, true⟩
      = some (true, ⟨⟨some root, some data⟩,
          ⟨[bytes "BODY[1.2] \x7b5\x7d\r\n", bytes "world"], results⟩, false⟩) := by
  have hfind : ∀ first : Bool,
      part_find ⟨bytes "1.2", 0, max_size, false⟩
        ⟨⟨some root, some data⟩, ⟨[], results⟩, first⟩ = PartFound.found d2 [] := by
    intro first
    have hb : bytes "1.2" = [49, 46, 50] := by decide
    simp [part_find, part_find_loop, part_find_num, part_find_child, hb, cur, hmulti,
      hchildren, hmulti1, hchildren1, UINT_MOD]
  refine ⟨hfind true, ?_⟩
  have hroute : index_fetch_body_route (bytes "1.2") = SectionRoute.part := by decide
  have htext : index_fetch_body_text ⟨bytes "1.2", 0, max_size, false⟩
      = bytes " BODY[1.2]" := by
    unfold index_fetch_body_text
    simp only [Bool.not_false, if_true]
    decide
  have hhdr : literal_header (bytes " BODY[1.2]").tail 5
      = bytes "BODY[1.2] \x7b5\x7d\r\n" := by
    decide
  unfold index_fetch_body_section index_fetch_body_dispatch
  simp only [hroute, if_true, htext]
  rw [fetch_part_emits_world coll _ _ _ d2 data rest (hfind false) rfl hsize hbody rfl hmax
    hsend0 hsend1, hhdr]
  rfl

/-- C15 (amended): on every multipart root with exactly two children whose second
child has a body of 5 bytes `world` (the message stream holds `world` at the
offset of that body), fetched as the first fragment with skip 0 not set, any
`max_size` of 5 or more and a sink whose two writes report no fault: section
`2` resolves to the root's second child, and the fetch succeeds having handed
`BODY[2] {5}` and `world` to the sink; section `1.2` resolves to the second
child of the root's first child when that first child is multipart and has
one, and is not-found otherwise; and when the first child is not multipart or
has fewer than two children, the fetch of `1.2` fails with nothing handed to
the sink. -/
theorem scenario_c_sections (coll : Collaborators) (root c1 c2 : MessagePart)
    (data rest : List Nat) (results : Nat → Int) (max_size : Nat)
    (hmulti : root.multipart = true) (hchildren : root.children = [c1, c2])
    (hsize : c2.body_size.virtual_size = 5)
    (hbody : data.drop ((c2.physical_pos + c2.header_size.physical_size) % UOFF_T_MOD)
      = bytes "world" ++ rest)
    (hmax : 5 ≤ max_size) (hsend0 : 0 ≤ results 0) (hsend1 : 0 ≤ results 1) :
    (part_find ⟨bytes "2", 0, max_size, false⟩
          ⟨⟨some root, some data⟩, ⟨[], results⟩, true⟩ = PartFound.found c2 []
      ∧ index_fetch_body_section coll ⟨bytes "2", 0, max_size, false⟩
          ⟨⟨some root, some data⟩, ⟨[], results⟩, true⟩
        = some (true, ⟨⟨some root, some data⟩,
            ⟨[bytes "BODY[2] \x7b5\x7d\r\n", bytes "world"], results⟩, false⟩))
    ∧ part_find ⟨bytes "1.2", 0, max_size, false⟩
          ⟨⟨some root, some data⟩, ⟨[], results⟩, true⟩
        = (match (if c1.multipart then c1.children[1]? else none) with
          | some d => PartFound.found d []
          | none => PartFound.null)
    ∧ (c1.multipart = false ∨ c1.children.length < 2 →
        index_fetch_body_section coll ⟨bytes "1.2", 0, max_size, false⟩
          ⟨⟨some root, some data⟩, ⟨[], results⟩, true⟩
        = some (false, ⟨⟨some root, some data⟩, ⟨[], results⟩, false⟩)) := by
  refine ⟨?_, ?_, ?_⟩
  · have hfind : ∀ first : Bool,
        part_find ⟨bytes "2", 0, max_size, false⟩
          ⟨⟨some root, some data⟩, ⟨[], results⟩, first⟩ = PartFound.found c2 [] := by
      intro first
      have hb : bytes "2" = [50] := by decide
      simp [part_find, part_find_loop, part_find_num, part_find_child, hb, cur, hmulti,
        hchildren, UINT_MOD]
    refine ⟨hfind true, ?_⟩
    have hroute : index_fetch_body_route (bytes "2") = SectionRoute.part := by decide
    have htext : index_fetch_body_text ⟨bytes "2", 0, max_size, false⟩
        = bytes " BODY[2]" := by
      unfold index_fetch_body_text
      simp only [Bool.not_false, if_true]
      decide
    have hhdr : literal_header (bytes " BODY[2]").tail 5 = bytes "BODY[2] \x7b5\x7d\r\n" := by
      decide
    unfold index_fetch_body_section index_fetch_body_dispatch
    simp only [hroute, if_true, htext]
    rw [fetch_part_emits_world coll _ _ _ c2 data rest (hfind false) rfl hsize hbody rfl hmax
      hsend0 hsend1, hhdr]
    rfl
  · exact part_find_1_2 root c1 [c2] (some data) ⟨[], results⟩ true 0 max_size false hmulti
      hchildren
  · intro hnone
    have hsel : (if c1.multipart then c1.children[1]? else none) = none := by
      rcases hnone with hleaf | hshort
      · simp [hleaf]
      · have h1 : c1.children[1]? = none := List.getElem?_eq_none (by omega)
        simp [h1]
    have hfind : part_find ⟨bytes "1.2", 0, max_size, false⟩
        ⟨⟨some root, some data⟩, ⟨[], results⟩, false⟩ = PartFound.null := by
      rw [part_find_1_2 root c1 [c2] (some data) ⟨[], results⟩ false 0 max_size false hmulti
        hchildren, hsel]
    have hroute : index_fetch_body_route (bytes "1.2") = SectionRoute.part := by decide
    unfold index_fetch_body_section index_fetch_body_dispatch
    simp only [hroute, if_true, fetch_part, hfind]

/-- C15 (amended), on the message of scenario C: the hypotheses hold, section `2`
emits `BODY[2] {5}` and `world`, and section `1.2` fails with nothing written. -/
theorem scenario_c_sections_witness :
    (scenario_c_root.multipart = true
      ∧ scenario_c_root.children = [scenario_c_first, scenario_c_second]
      ∧ scenario_c_second.body_size.virtual_size = 5
      ∧ scenario_c_message.drop
          ((scenario_c_second.physical_pos + scenario_c_second.header_size.physical_size)
            % UOFF_T_MOD) = bytes "world" ++ []
      ∧ (5 : Nat) ≤ UOFF_T_MAX
      ∧ scenario_c_first.multipart = false)
    ∧ index_fetch_body_section sample_coll ⟨bytes "2", 0, UOFF_T_MAX, false⟩
        ⟨⟨some scenario_c_root, some scenario_c_message⟩, ⟨[], fun _ => 0⟩, true⟩
      = some (true, ⟨⟨some scenario_c_root, some scenario_c_message⟩,
          ⟨[bytes "BODY[2] \x7b5\x7d\r\n", bytes "world"], fun _ => 0⟩, false⟩)
    ∧ index_fetch_body_section sample_coll ⟨bytes "1.2", 0, UOFF_T_MAX, false⟩
        ⟨⟨some scenario_c_root, some scenario_c_message⟩, ⟨[], fun _ => 0⟩, true⟩
      = some (false, ⟨⟨some scenario_c_root, some scenario_c_message⟩,
          ⟨[], fun _ => 0⟩, false⟩) :=
  ⟨⟨rfl, rfl, rfl, by decide, by decide, rfl⟩,
   (scenario_c_sections sample_coll scenario_c_root scenario_c_first scenario_c_second
      scenario_c_message [] (fun _ => 0) UOFF_T_MAX rfl rfl rfl (by decide) (by decide)
      (by decide) (by decide)).1.2,
   (scenario_c_sections sample_coll scenario_c_root scenario_c_first scenario_c_second
      scenario_c_message [] (fun _ => 0) UOFF_T_MAX rfl rfl rfl (by decide) (by decide)
      (by decide) (by decide)).2.2 (Or.inl rfl)⟩

/-- C20 (counterexample): for section `MIME` the classifier returns header size and
open, a non-empty set, while `index_fetch_body_section` takes its last branch:
whatever the collaborators and the context, it returns failure with the cache
not consulted and nothing handed to the sink. -/
theorem classifier_accepts_mime_dispatcher_rejects :
    index_fetch_body_get_cache (bytes "MIME")
      = [ImapCacheField.IMAP_CACHE_MESSAGE_HDR_SIZE, ImapCacheField.IMAP_CACHE_MESSAGE_OPEN]
    ∧ index_fetch_body_route (bytes "MIME") = SectionRoute.unrecognized
    ∧ ∀ (coll : Collaborators) (skip max_size : Nat) (skip_set : Bool) (ctx : FetchContext),
        index_fetch_body_section coll ⟨bytes "MIME", skip, max_size, skip_set⟩ ctx
          = some (false, { ctx with first := false }) := by
  refine ⟨by decide, by decide, ?_⟩
  intro coll skip max_size skip_set ctx
  have hroute : index_fetch_body_route (bytes "MIME") = SectionRoute.unrecognized := by decide
  unfold index_fetch_body_section index_fetch_body_dispatch
  simp only [hroute]
  obtain ⟨cache, outbuf, first⟩ := ctx
  cases first <;> rfl

/-- The first byte of a C string is the first byte of its content. -/
theorem cur_eq_head_cstr (s : List Nat) : cur s = (cstr s).headD 0 := by
  cases s with
  | nil => rfl
  | cons c s =>
    by_cases h : c = 0
    · simp [cur, cstr_cons, h]
    · simp [cur, cstr_cons, h]

/-- A section equal to `MIME` in any letter case is not empty, is not `TEXT`, does not
start with `HEADER` and does not start with a digit. -/
theorem mime_section_facts (s : List Nat) (h : eq_nocase s (bytes "MIME") = true) :
    cstr s ≠ [] ∧ eq_nocase s (bytes "TEXT") = false
      ∧ starts_nocase s (bytes "HEADER") 6 = false ∧ is_digit (cur s) = false := by
  unfold eq_nocase at h
  rw [decide_eq_true_iff] at h
  have h2 : (cstr (bytes "MIME")).map i_tolower = [109, 105, 109, 101] := by decide
  have h3 : (cstr (bytes "TEXT")).map i_tolower = [116, 101, 120, 116] := by decide
  have h4 : ((cstr (bytes "HEADER")).take 6).map i_tolower
      = [104, 101, 97, 100, 101, 114] := by decide
  rw [h2] at h
  unfold eq_nocase starts_nocase
  rw [cur_eq_head_cstr, h3, h4, decide_eq_false_iff_not, decide_eq_false_iff_not]
  generalize cstr s = l at h
  cases l with
  | nil => simp at h
  | cons c l =>
    simp only [List.map_cons, List.cons.injEq] at h
    have hc : i_tolower c = 109 := h.1
    have hdig : is_digit c = false := by
      unfold i_tolower at hc
      unfold is_digit
      rw [decide_eq_false_iff_not]
      split at hc <;> omega
    refine ⟨by simp, ?_, ?_, by simpa using hdig⟩
    · intro ht
      simp only [List.map_cons, List.cons.injEq] at ht
      omega
    · intro ht
      simp only [List.take_succ_cons, List.map_cons, List.cons.injEq] at ht
      omega

/-- C20 (amended): apart from `MIME`, classifier and dispatcher agree: for every section
string, the section takes the last, unrecognized-section branch of
`index_fetch_body_section` exactly when the classifier returns the empty set
or the section is `MIME` in any letter case. -/
theorem route_unrecognized_iff (s : List Nat) :
    index_fetch_body_route s = SectionRoute.unrecognized
      ↔ (index_fetch_body_get_cache s = [] ∨ eq_nocase s (bytes "MIME") = true) := by
  unfold index_fetch_body_route index_fetch_body_get_cache
  by_cases hmime : eq_nocase s (bytes "MIME") = true
  · obtain ⟨hne, htext, hheader, hdigit⟩ := mime_section_facts s hmime
    have h1 : ¬ cur s = 0 := by rw [cur_eq_zero_iff_cstr]; exact hne
    have h2 : ¬ strcasecmp s (bytes "TEXT") = 0 := by
      rw [strcasecmp_eq_zero_iff, htext]; simp
    have h3 : ¬ strncasecmp s (bytes "HEADER") 6 = 0 := by
      rw [strncasecmp_eq_zero_iff, hheader]; simp
    have h4 : ¬ (48 ≤ cur s ∧ cur s ≤ 57) := by
      rw [← is_digit_iff, hdigit]; simp
    simp [h1, h2, h3, h4, hmime]
  · have h5 : ¬ strcasecmp s (bytes "MIME") = 0 := by
      rw [strcasecmp_eq_zero_iff]; exact hmime
    by_cases h1 : cur s = 0
    · have h4 : ¬ (48 ≤ cur s ∧ cur s ≤ 57) := by omega
      simp [h1, hmime]
    · by_cases h2 : strcasecmp s (bytes "TEXT") = 0
      · by_cases h4 : 48 ≤ cur s ∧ cur s ≤ 57
        · exfalso
          have ht := (strcasecmp_eq_zero_iff _ _).1 h2
          unfold eq_nocase at ht
          rw [decide_eq_true_iff] at ht
          have h3 : (cstr (bytes "TEXT")).map i_tolower = [116, 101, 120, 116] := by decide
          rw [h3] at ht
          rw [cur_eq_head_cstr] at h4
          generalize cstr s = l at ht h4
          cases l with
          | nil => simp at ht
          | cons c l =>
            simp only [List.map_cons, List.cons.injEq] at ht
            have hc := ht.1
            simp only [List.headD_cons] at h4
            unfold i_tolower at hc
            split at hc <;> omega
        · simp [h1, h2, h4, hmime]
      · by_cases h3 : strncasecmp s (bytes "HEADER") 6 = 0
        · by_cases h4 : 48 ≤ cur s ∧ cur s ≤ 57
          · exfalso
            have ht := (strncasecmp_eq_zero_iff _ _ _).1 h3
            unfold starts_nocase at ht
            rw [decide_eq_true_iff] at ht
            have h6 : ((cstr (bytes "HEADER")).take 6).map i_tolower
                = [104, 101, 97, 100, 101, 114] := by decide
            rw [h6] at ht
            rw [cur_eq_head_cstr] at h4
            generalize cstr s = l at ht h4
            cases l with
            | nil => simp at ht
            | cons c l =>
              simp only [List.take_succ_cons, List.map_cons, List.cons.injEq] at ht
              have hc := ht.1
              simp only [List.headD_cons] at h4
              unfold i_tolower at hc
              split at hc <;> omega
          · simp [h1, h2, h3, h4, hmime]
        · by_cases h4 : 48 ≤ cur s ∧ cur s ≤ 57
          · simp [h1, h2, h3, h4, hmime]
          · simp [h1, h2, h3, h4, h5, hmime]

end IndexFetchSection
